import Mathlib

/-!
# Verification of the GM8Emulator asset loader and renderer

Shallow embedding of the game-asset loader (`src/Collision.hpp`, function
`GameLoad` and its helpers) and of the draw-command renderer
(`src/Renderer.cpp`).  Byte streams are modelled as `List Nat` whose
elements are byte values (< 256); machine integers are `Nat` with explicit
`% 2^32` where 32-bit overflow matters; C `int` arithmetic is modelled with
`Int` and truncated division (`Int.tdiv` / `Int.tmod`), matching C.
Out-of-range reads (undefined behaviour in the C source, which performs no
bounds checks) are modelled as reading byte 0 (`List.getD`).
-/

namespace GM8

/-- Modelled from the spec (§4.1 Primitive Stream Reader): `ReadDword`
returns the 4-byte little-endian unsigned integer at `pos`.  The C
implementation lives in `StreamUtil.hpp`, which is not part of the sources
under verification; only its contract is given by the spec.  Cursor
advancement (`pos += 4`) is explicit at every call site of this model. -/
def readDword (buf : List Nat) (pos : Nat) : Nat :=
  buf.getD pos 0 + buf.getD (pos + 1) 0 * 256 +
    buf.getD (pos + 2) 0 * 65536 + buf.getD (pos + 3) 0 * 16777216

/-- The four little-endian bytes of a 32-bit value, as written back to the
stream by `Decrypt81` (`pStream[encPos-4] = d & 0xFF`, …). -/
def dwordBytes (d : Nat) : List Nat :=
  [d % 256, d / 256 % 256, d / 65536 % 256, d / 16777216 % 256]

/-! ## GM8.1 stream XOR cipher (`GetXorMask`, `Decrypt81`) -/

/-- Embeds `GetXorMask` (Collision.hpp): updates both seeds and returns the
mask built from the *updated* seeds.  All arithmetic is `unsigned int`,
i.e. modulo 2^32. -/
def getXorMask (s : Nat × Nat) : (Nat × Nat) × Nat :=
  let s1 := ((0xFFFF &&& s.1) * 0x9069 + (s.1 >>> 16)) % 2 ^ 32
  let s2 := ((0xFFFF &&& s.2) * 0x4650 + (s.2 >>> 16)) % 2 ^ 32
  ((s1, s2), ((s1 <<< 16) + (s2 &&& 0xFFFF)) % 2 ^ 32)

/-- The `k`-th XOR mask produced by iterating `getXorMask` from seed pair
`s` (the mask used on the `k`-th decrypted dword, counting from 0). -/
def xorMaskSeq (s : Nat × Nat) : Nat → Nat
  | 0 => (getXorMask s).2
  | k + 1 => xorMaskSeq (getXorMask s).1 k

/-- Embeds the `while (encPos < pStreamLength)` loop of `Decrypt81`: the
suffix of the stream starting at `encPos` is consumed one dword at a time;
a final chunk of fewer than 4 bytes is left as it is (`if
((pStreamLength - encPos) < 4) break;`). -/
def decrypt81Core (s : Nat × Nat) : List Nat → List Nat
  | b0 :: b1 :: b2 :: b3 :: rest =>
    let d := b0 + b1 * 256 + b2 * 65536 + b3 * 16777216
    dwordBytes (d ^^^ (getXorMask s).2) ++ decrypt81Core (getXorMask s).1 rest
  | [] => []
  | [b0] => [b0]
  | [b0, b1] => [b0, b1]
  | [b0, b1, b2] => [b0, b1, b2]

/-- Embeds `Decrypt81` (Collision.hpp) from the point where the hash-key
CRC `seed2` is in hand: reads the raw `seed1` dword at `pos`, skips
`(seed2 & 0xFF) + 0xA` further bytes, and XOR-decrypts the rest of the
stream dword by dword.  (The derivation of `seed2` — CRC32 of the
UTF-16-widened `"_MJD<seed>#RWK"` string — is kept as a parameter; the
claims under verification take `seed2` as given.) -/
def decrypt81 (stream : List Nat) (pos : Nat) (seed2 : Nat) : List Nat :=
  let seed1 := readDword stream pos
  let encPos := (pos + 4) + ((seed2 &&& 0xFF) + 0xA)
  stream.take encPos ++ decrypt81Core (seed1, seed2) (stream.drop encPos)

/-- Modelled from the spec (§4.1): `ReadString` reads a 4-byte length
prefix followed by that many raw bytes and hands the caller an owned copy
(and the raw length); the cursor advances past prefix and bytes.  Returns
the byte copy and the new cursor. -/
def readString (buf : List Nat) (pos : Nat) : List Nat × Nat :=
  let len := readDword buf pos
  ((buf.drop (pos + 4)).take len, pos + 4 + len)

/-! ## Version detection (`GameLoad`, lines 337–371) -/

/-- Embeds the GM8.1 fingerprint scan loop of `GameLoad`
(`pos = 3800004; for (int i = 0; i < 1024; i++) ...`): reads a dword; when
it matches `0xFF00FF00 == 0xF7000000` the immediately following dword is
read and tested against `0x00FF00FF == 0x00140067`; on a double match the
version is 810, otherwise `pos -= 4` makes the next iteration start at the
following dword either way.  Returns 0 when the fuel (1024 iterations) is
exhausted. -/
def scan81 (buffer : List Nat) : Nat → Nat → Nat
  | _, 0 => 0
  | pos, fuel + 1 =>
    if readDword buffer pos &&& 0xFF00FF00 = 0xF7000000 then
      if readDword buffer (pos + 4) &&& 0x00FF00FF = 0x00140067 then 810
      else scan81 buffer (pos + 4) fuel
    else scan81 buffer (pos + 4) fuel

/-- Embeds the version-detection fragment of `GameLoad`: the GM8.0 check
is a fixed dword comparison at absolute offset 2,000,000; otherwise the
windowed GM8.1 scan starts at 3,800,004.  (On a GM8.1 match the original
also invokes `Decrypt81` — modelled separately as `decrypt81` — before
continuing.) -/
def detectVersion (buffer : List Nat) : Nat :=
  if readDword buffer 2000000 = 1234321 then 800
  else scan81 buffer 3800004 1024

/-- Embeds `if (!version) { return false; }`: a zero version makes
`GameLoad` fail. -/
def versionCheck (buffer : List Nat) : Except Unit Nat :=
  if detectVersion buffer = 0 then .error () else .ok (detectVersion buffer)

/-! ## Extension-file substitution cipher (`GameLoad`, lines 561–594) -/

/-- C `int` value of an unsigned 32-bit dword, as in
`int seed1 = ReadDword(buffer, &dataPos)` (two's-complement
reinterpretation). -/
def dwordToInt (d : Nat) : Int :=
  if d < 2 ^ 31 then (d : Int) else (d : Int) - 2 ^ 32

/-- Conversion of a C `int` to `unsigned int` (modulo 2^32), as happens
when `seed1`/`seed2` enter the unsigned expression `(i * seed2) + seed1`. -/
def intToUInt32 (z : Int) : Nat := (z % 2 ^ 32).toNat

/-- Embeds the seed derivation of the extension-file cipher:
`int seed2 = (seed1 % 0xFA) + 6; seed1 /= 0xFA;
if (seed1 < 0) seed1 += 100; if (seed2 < 0) seed2 += 100;`
(C `%` and `/` truncate towards zero: `Int.tmod` / `Int.tdiv`). -/
def extSeeds (d : Nat) : Int × Int :=
  let seed1 := dwordToInt d
  let seed2 := seed1.tmod 0xFA + 6
  let seed1 := seed1.tdiv 0xFA
  let seed1 := if seed1 < 0 then seed1 + 100 else seed1
  let seed2 := if seed2 < 0 then seed2 + 100 else seed2
  (seed1, seed2)

/-- The initialisation `for (i = 0; i < 0x200; i++) charTable[i] = i;`.
The table is an array of 0x200 `unsigned char` entries, so the stored
value is `i` truncated to a byte. -/
def extTableInit : List Nat := (List.range 0x200).map (fun i => i % 256)

/-- One iteration of the first (swap) pass:
`AX = (((i * seed2) + seed1) % 0xFE) + 1;` then `charTable[AX]` and
`charTable[AX + 1]` are exchanged.  `i` is `unsigned`, so the index
expression is evaluated modulo 2^32. -/
def extSwapStep (s1 s2 : Nat) (t : List Nat) (i : Nat) : List Nat :=
  let AX := (i * s2 + s1) % 2 ^ 32 % 0xFE + 1
  let b1 := t.getD AX 0
  let b2 := t.getD (AX + 1) 0
  (t.set AX b2).set (AX + 1) b1

/-- The first pass after `n` iterations: the code runs
`for (i = 1; i < 0x2711; i++)`, i.e. the swap step for `i = 1 .. 10000`
(`0x2711 = 10001`); `extTablePass1 s1 s2 n` is the table after the steps
`i = 1 .. n`. -/
def extTablePass1 (s1 s2 : Nat) (n : Nat) : List Nat :=
  (List.range n).foldl (fun t k => extSwapStep s1 s2 t (k + 1)) extTableInit

/-- One iteration of the second pass:
`DX = charTable[i + 1]; charTable[DX + 0x100] = i + 1;` — reads the
*current* table at `i + 1` and stores the byte `(i + 1) % 256` (the table
holds `unsigned char`) at `DX + 0x100`. -/
def extInvStep (tl : List Nat) (i : Nat) : List Nat :=
  tl.set (tl.getD (i + 1) 0 + 0x100) ((i + 1) % 256)

/-- The second pass after `n` iterations of
`for (i = 0; i < 0x100; i++) { DX = charTable[i + 1]; charTable[DX + 0x100] = i + 1; }`
over the table `t` left by pass 1. -/
def extTablePass2 (t : List Nat) (n : Nat) : List Nat :=
  (List.range n).foldl extInvStep t

/-- The full 512-entry byte table derived from the seed dword `d`
(`extTablePass1` for `i = 1 .. 0x2710` followed by the 0x100 iterations of
the second pass). -/
def extCharTable (d : Nat) : List Nat :=
  extTablePass2
    (extTablePass1 (intToUInt32 (extSeeds d).1) (intToUInt32 (extSeeds d).2) 0x2710)
    0x100

/-- Embeds the in-place decryption of one extension file's data region
(lines 561–594 of `GameLoad`): the region starts at `start` and is `len`
bytes long; the seed dword is read at `start` (advancing the local cursor
to `start + 4`), and the loop
`for (i = dataPos + 1; i < pos; i++) buffer[i] = charTable[buffer[i] + 0x100];`
substitutes the bytes at indices `[start + 5, start + len)` through the
second half of the table (the byte at `start + 4` is skipped). -/
def extDecryptRegion (buffer : List Nat) (start len : Nat) : List Nat :=
  let t := extCharTable (readDword buffer start)
  buffer.mapIdx fun i b =>
    if start + 5 ≤ i ∧ i < start + len then t.getD (b + 0x100) 0 else b

/-- Follows the words of claim C4, which differ from the code in one
point: the swap pass runs "over exactly the indices i = 1..9999".
Identical construction, 9999 swap iterations. -/
def extCharTableClaim (d : Nat) : List Nat :=
  extTablePass2
    (extTablePass1 (intToUInt32 (extSeeds d).1) (intToUInt32 (extSeeds d).2) 9999)
    0x100

/-- The per-extension-file decryption as described by claim C4 (swap pass
over i = 1..9999), for comparison with `extDecryptRegion`. -/
def extDecryptRegionClaim (buffer : List Nat) (start len : Nat) : List Nat :=
  let t := extCharTableClaim (readDword buffer start)
  buffer.mapIdx fun i b =>
    if start + 5 ≤ i ∧ i < start + len then t.getD (b + 0x100) 0 else b

/-- The index permutation performed by one swap step: the transposition of
`ax` and `ax + 1` (proof helper). -/
def swapIdx (ax j : Nat) : Nat :=
  if j = ax then ax + 1 else if j = ax + 1 then ax else j



/-! ## Renderer (`src/Renderer.cpp`)

The PSP build keeps only part of the original GL renderer alive: every
`gl*`/`glfw*` call is commented out.  The embedding models the live code:
the data structures, the `_contextSet` check, image registration, the
draw-command list, the batching loop of `RRenderFrame`, and `_Compile`'s
control flow.  Floating-point data (the 4×4 transform, alpha, blend, the
normalised atlas UVs) is not modelled; a draw command records its discrete
fields and the integer texel subregion the UVs are computed from. -/

/-- `struct RPreImage`: an image awaiting atlas packing.  `data` is the
`w*h*4`-byte pixel copy made by `RMakeImage`; `x`, `y` model the `_x`/`_y`
fields filled in by `_Compile`'s packing callback. -/
structure RPreImage where
  w : Nat
  h : Nat
  data : List Nat
  imgIndex : Nat
  x : Nat := 0
  y : Nat := 0
deriving Repr, DecidableEq, Inhabited

/-- `struct RAtlasImage`: the durable per-image reference record.  In the
C struct, `atlasId`, `x` and `y` stay uninitialised until `_Compile` runs;
they are modelled as `Option Nat` with `none` = never written. -/
structure RAtlasImage where
  atlasId : Option Nat := none
  x : Option Nat := none
  y : Option Nat := none
  w : Nat
  h : Nat
  originX : Nat
  originY : Nat
deriving Repr, DecidableEq, Inhabited

/-- `struct RDrawCommand`, restricted to its discrete fields: the float
transform matrix, `alpha`, `blend` and the normalised `atlasXY`/`atlasWH`
are floating point and not modelled; the command records the image index,
the image's atlas id, and the clamped integer texel subregion
(`partX`, `partY`, `partW`, `partH`) from which `atlasXY`/`atlasWH` are
computed. -/
structure RDrawCommand where
  imageIndex : Nat
  atlasId : Option Nat
  partX : Nat
  partY : Nat
  partW : Nat
  partH : Nat
deriving Repr, DecidableEq, Inhabited

/-- The renderer's module-level mutable state (`_preImages`,
`_atlasImages`, `_atlases`, `boundAtlas`, `_drawCommands`, `_contextSet`,
`_tallest`, `_widest`, `_pixelCount`, `_maxTextures`, `_maxTextureSize`).
`boundAtlas` is a C `int` initialised to `-1`; it is modelled as
`Option Nat` with `none` for `-1`.  `_atlases` slot `i` holds the bin size
written by `_Compile`, `none` while unwritten. -/
structure RState where
  contextSet : Bool
  preImages : List RPreImage
  atlasImages : List RAtlasImage
  atlases : Nat → Option (Nat × Nat)
  boundAtlas : Option Nat
  tallest : Nat
  widest : Nat
  pixelCount : Nat
  maxTextures : Nat
  maxTextureSize : Nat
  drawCommands : List RDrawCommand

/-- Embeds `RInit` plus C++ static zero-initialisation: the vectors start
empty, `_maxTextures`/`_maxTextureSize` are zero-initialised globals that
this build never assigns (the `glGetIntegerv` calls are commented out),
and `RInit` itself sets `_contextSet = false`, `_tallest = _widest =
_pixelCount = 0`, `boundAtlas = -1`. -/
def rInitState : RState where
  contextSet := false
  preImages := []
  atlasImages := []
  atlases := fun _ => none
  boundAtlas := none
  tallest := 0
  widest := 0
  pixelCount := 0
  maxTextures := 0
  maxTextureSize := 0
  drawCommands := []

/-- Embeds `RMakeGameWindow` as it stands in this build: apart from the
external `g2dInit()` call, only the re-entry check is live — the function
fails if `_contextSet` is already true and otherwise returns success
*without* touching the renderer state; in particular the code that would
set `_contextSet = true` and call `_Compile()` is commented out. -/
def rMakeGameWindow (st : RState) : Bool × RState :=
  if st.contextSet then (false, st) else (true, st)

/-- Embeds `RMakeImage`: aborts (modelled as `none`) when `_contextSet`
is set; otherwise copies `w*h*4` pixel bytes into a new pre-image, appends
a reference record, assigns `imgIndex = _atlasImages.size()` and returns
it, updating `_tallest = max(_tallest, w)`, `_widest = max(_widest, h)`
(sic — the C code swaps the two) and `_pixelCount += w*h`. -/
def rMakeImage (st : RState) (w h originX originY : Nat) (bytes : List Nat) :
    Option (Nat × RState) :=
  if st.contextSet then none
  else
    let pImg : RPreImage :=
      { w := w, h := h, data := bytes.take (w * h * 4),
        imgIndex := st.atlasImages.length }
    let aImg : RAtlasImage :=
      { w := w, h := h, originX := originX, originY := originY }
    some (pImg.imgIndex,
      { st with
          atlasImages := st.atlasImages ++ [aImg]
          preImages := st.preImages ++ [pImg]
          tallest := max st.tallest w
          widest := max st.widest h
          pixelCount := st.pixelCount + w * h })

/-- Embeds `RDrawPartialImage` (discrete part): early-returns (no command
appended) when `partX >= aImg->w` or `partY >= aImg->h`; otherwise clamps
`partW`/`partH` to the image bounds and appends one draw command.  The C
code indexes `_atlasImages.data() + ix` without a bounds check; an
out-of-range `ix` is modelled with the `default` record. -/
def rDrawPartialImage (st : RState) (ix : Nat)
    (partX partY partW partH : Nat) : RState :=
  let aImg := st.atlasImages.getD ix default
  if partX ≥ aImg.w then st
  else if partY ≥ aImg.h then st
  else
    let partW := if partX + partW > aImg.w then aImg.w - partX else partW
    let partH := if partY + partH > aImg.h then aImg.h - partY else partH
    { st with
        drawCommands := st.drawCommands ++
          [{ imageIndex := ix, atlasId := aImg.atlasId,
             partX := partX, partY := partY, partW := partW, partH := partH }] }

/-- Embeds `RDrawImage`: delegates to `RDrawPartialImage` with the full
image as the subregion. -/
def rDrawImage (st : RState) (ix : Nat) : RState :=
  rDrawPartialImage st ix 0 0 (st.atlasImages.getD ix default).w
    (st.atlasImages.getD ix default).h

/-- Embeds the live part of `RStartFrame`: the draw-command list is
cleared (the clear-colour calls go to the external backend). -/
def rStartFrame (st : RState) : RState := { st with drawCommands := [] }

/-- Embeds the batching loop of `RRenderFrame`: starting at `drawn`, the
inner `for` counts the maximal contiguous run of commands sharing the
first command's atlas id (`toDraw`); a texture bind is issued only when
`boundAtlas` differs from that id, after which `boundAtlas` holds it; then
`drawn += toDraw`.  The result lists each run in order together with
whether a bind was issued for it, and the final `boundAtlas`. -/
def rRenderFrame (bound : Option Nat) :
    List RDrawCommand → List (List RDrawCommand × Bool) × Option Nat
  | [] => ([], bound)
  | c :: rest =>
    let run := c :: rest.takeWhile (fun d => d.atlasId == c.atlasId)
    let rest' := rest.dropWhile (fun d => d.atlasId == c.atlasId)
    let next := rRenderFrame c.atlasId rest'
    ((run, bound != c.atlasId) :: next.1, next.2)
termination_by l => l.length
decreasing_by
  simp_wf
  have : (rest.dropWhile (fun d => d.atlasId == c.atlasId)).length ≤ rest.length :=
    (List.dropWhile_suffix _).length_le
  omega

/-- The result of one `rectpack2D::find_best_packing` call, abstracted:
for each input rectangle `(w, h)`, either a packed position `some (x, y)`
(the `report_successful` callback) or `none` (`report_unsuccessful`),
together with the chosen bin size (`result_size`).  rectpack2D is an
external library (`finders_interface.h`), so it enters the model as a
parameter; the claims' theorems state their hypotheses about it. -/
structure RPackResult where
  placed : List (Option (Nat × Nat))
  binW : Nat
  binH : Nat

/-- The type of the abstracted rectangle packer. -/
def RPacker : Type := List (Nat × Nat) → RPackResult

/-- Embeds `_Compile`: sanity checks (`_tallest`/`_widest` against
`_maxTextureSize`, `firstAtlas` against `_maxTextures`, and the
`_pixelCount == 0` early success), one packer call over all pre-images,
recording of every packed image's `x`, `y`, `w`, `h` and `atlasId =
firstAtlas` in `_atlasImages`, recording of the bin size in
`_atlases[firstAtlas]`, and the recursive retry `_Compile(firstAtlas + 1)`
on the unpacked remainder.  Failure (`return false`) is `none`.  (The
composition of the atlas pixel buffer is not modelled: in this build the
buffer is composed, never uploaded — the `g2dTexLoad` call is commented
out — and freed.) -/
def rCompile (packer : RPacker) (st : RState) (firstAtlas : Nat) :
    Option RState :=
  if st.tallest > st.maxTextureSize then none
  else if st.widest > st.maxTextureSize then none
  else if firstAtlas > st.maxTextures then none
  else if st.pixelCount = 0 then some st
  else
    let res := packer (st.preImages.map fun p => (p.w, p.h))
    let zipped := st.preImages.zip res.placed
    let packed := zipped.filterMap fun q =>
      q.2.map fun xy => { q.1 with x := xy.1, y := xy.2 }
    let unpacked := zipped.filterMap fun q =>
      if q.2.isNone then some q.1 else none
    let atlasImages' := packed.foldl
      (fun imgs img => imgs.set img.imgIndex
        { imgs.getD img.imgIndex default with
            x := some img.x, y := some img.y, w := img.w, h := img.h,
            atlasId := some firstAtlas })
      st.atlasImages
    let st' := { st with
        atlasImages := atlasImages'
        atlases := fun i =>
          if i = firstAtlas then some (res.binW, res.binH) else st.atlases i
        preImages := unpacked }
    if unpacked.length ≠ 0 then rCompile packer st' (firstAtlas + 1)
    else some st'
termination_by st.maxTextures + 1 - firstAtlas
decreasing_by
  simp_wf
  omega

/-- Named decomposition of `_Compile`'s local `rects`: the rectangle list
handed to `rectpack2D`, one `(w, h)` entry per pending pre-image (same
term as the corresponding `let` in `rCompile`). -/
def rCompileRects (st : RState) : List (Nat × Nat) :=
  st.preImages.map fun p => (p.w, p.h)

/-- Named decomposition of `_Compile`'s local `packed`: the pre-images the
packer placed this round, with `_x`/`_y` filled in by the
`report_successful` callback (same term as the `let` in `rCompile`). -/
def rCompilePacked (packer : RPacker) (st : RState) : List RPreImage :=
  (st.preImages.zip (packer (rCompileRects st)).placed).filterMap fun q =>
    q.2.map fun xy => { q.1 with x := xy.1, y := xy.2 }

/-- Named decomposition of `_Compile`'s local `unpacked`: the pre-images
the packer reported unsuccessful this round; they are retried at
`firstAtlas + 1` (same term as the `let` in `rCompile`). -/
def rCompileUnpacked (packer : RPacker) (st : RState) : List RPreImage :=
  (st.preImages.zip (packer (rCompileRects st)).placed).filterMap fun q =>
    if q.2.isNone then some q.1 else none

/-- One write of `_Compile`'s recording loop: the packed image's reference
record receives its position, size and atlas id (the step function of the
fold in `rCompile`). -/
def rCompileSet (firstAtlas : Nat) (imgs : List RAtlasImage)
    (img : RPreImage) : List RAtlasImage :=
  imgs.set img.imgIndex
    { imgs.getD img.imgIndex default with
        x := some img.x, y := some img.y, w := img.w, h := img.h,
        atlasId := some firstAtlas }

/-- `_Compile`'s recording loop over all images packed this round (the
`atlasImages'` of `rCompile`). -/
def rCompileFold (packer : RPacker) (st : RState) (firstAtlas : Nat) :
    List RAtlasImage :=
  (rCompilePacked packer st).foldl (rCompileSet firstAtlas) st.atlasImages

/-- The state after one non-trivial `_Compile` round: records updated, the
bin size stored in `_atlases[firstAtlas]`, and the unpacked remainder left
as the pending pre-images (the `st'` of `rCompile`). -/
def rCompileNext (packer : RPacker) (st : RState) (firstAtlas : Nat) :
    RState :=
  { st with
      atlasImages := rCompileFold packer st firstAtlas
      atlases := fun i =>
        if i = firstAtlas then
          some ((packer (rCompileRects st)).binW,
            (packer (rCompileRects st)).binH)
        else st.atlases i
      preImages := rCompileUnpacked packer st }

/-- Two axis-aligned rectangles, given by position and size, do not
overlap (used to state the claimed no-overlap property of the packing). -/
def rectDisjoint (x1 y1 w1 h1 x2 y2 w2 h2 : Nat) : Prop :=
  x1 + w1 ≤ x2 ∨ x2 + w2 ≤ x1 ∨ y1 + h1 ≤ y2 ∨ y2 + h2 ≤ y1

/-- A concrete packer used to exercise `_Compile`: it places a lone
rectangle at the origin of a 1×1 bin and refuses every larger request. -/
def c3Packer : RPacker := fun rects =>
  if rects.length = 1 then { placed := [some (0, 0)], binW := 1, binH := 1 }
  else { placed := rects.map fun _ => none, binW := 0, binH := 0 }

/-- A one-image renderer state (one 1×1 image, already registered, fitting
the maximum texture dimension) used to exercise `_Compile`. -/
def c3State : RState where
  contextSet := false
  preImages := [{ w := 1, h := 1, data := [], imgIndex := 0 }]
  atlasImages := [{ w := 1, h := 1, originX := 0, originY := 0 }]
  atlases := fun _ => none
  boundAtlas := none
  tallest := 1
  widest := 1
  pixelCount := 1
  maxTextures := 0
  maxTextureSize := 1
  drawCommands := []

/-- A submission request for `RMakeImage` (argument record used to state
properties of submission sequences). -/
structure RImageSpec where
  w : Nat
  h : Nat
  originX : Nat
  originY : Nat
  bytes : List Nat

/-- The reference record `RMakeImage` creates for a submission. -/
def RImageSpec.record (s : RImageSpec) : RAtlasImage :=
  { w := s.w, h := s.h, originX := s.originX, originY := s.originY }

/-- A sequence of `RMakeImage` calls (as performed by the sprite,
background and font loaders), collecting the returned indices; `none` if
any call aborts. -/
def rSubmitImages (st : RState) : List RImageSpec → Option (List Nat × RState)
  | [] => some ([], st)
  | s :: rest =>
    (rMakeImage st s.w s.h s.originX s.originY s.bytes).bind fun p =>
      (rSubmitImages p.2 rest).bind fun q => some (p.1 :: q.1, q.2)

/-- The renderer states reachable from `RInit` through the modelled
operations. -/
inductive RReach : RState → Prop where
  | init : RReach rInitState
  | makeWindow {st} : RReach st → RReach (rMakeGameWindow st).2
  | makeImage {st w h ox oy bytes ix st'} : RReach st →
      rMakeImage st w h ox oy bytes = some (ix, st') → RReach st'
  | drawPartial {st ix px py pw ph} : RReach st →
      RReach (rDrawPartialImage st ix px py pw ph)
  | draw {st ix} : RReach st → RReach (rDrawImage st ix)
  | startFrame {st} : RReach st → RReach (rStartFrame st)
  | compile {packer st fa st'} : RReach st →
      rCompile packer st fa = some st' → RReach st'

/-! ## Per-record asset sections (`GameLoad`)

Each per-record section of `GameLoad` runs `count = ReadDword(...)`,
reserves `count` records, and for each record inflates one block
(`InflateBlock` — zlib, external; a failed inflate aborts the whole load)
and parses the decompressed block into a freshly appended record.  A
leading zero dword tombstones the record (`x->exists = false; continue;`).
The loaders below take the list of successfully decompressed blocks, one
per record. -/

/-- `Trigger` (the fields `GameLoad` fills; the C struct's `exists` flag
is `exists_` here — `exists` is a Lean keyword).  `codeObj` holds the
condition source bytes that the original hands to the external
`CodeManager::RegisterQuestion`.  A tombstoned record has `body = none`:
no body field is ever read for it. -/
structure TriggerBody where
  name : List Nat
  codeObj : List Nat
  checkMoment : Nat
  constantName : List Nat
deriving Repr, DecidableEq, Inhabited

structure Trigger where
  exists_ : Bool
  body : Option TriggerBody
deriving Repr, DecidableEq, Inhabited

/-- Embeds the per-trigger parse (`GameLoad`, lines 630–646): a leading
zero dword yields the tombstone; otherwise skip the version dword and read
name, condition (registered as `codeObj`), `checkMoment`,
`constantName`. -/
def parseTrigger (data : List Nat) : Trigger :=
  if readDword data 0 = 0 then { exists_ := false, body := none }
  else
    let pos := 4 + 4
    let s1 := readString data pos
    let s2 := readString data s1.2
    let checkMoment := readDword data s2.2
    let s3 := readString data (s2.2 + 4)
    { exists_ := true,
      body := some { name := s1.1, codeObj := s2.1, checkMoment := checkMoment,
                     constantName := s3.1 } }

/-- The triggers section over its decompressed blocks: one
`AddTrigger` + parse per block, in order. -/
def loadTriggers (blocks : List (List Nat)) : List Trigger :=
  blocks.map parseTrigger

/-- `CollisionMap` (per sprite frame, or one shared). -/
structure CollisionMap where
  width : Nat
  height : Nat
  left : Nat
  right : Nat
  bottom : Nat
  top : Nat
  collision : List Bool
deriving Repr, DecidableEq, Inhabited

/-- The body of a non-tombstoned `Sprite`.  `frames` holds the
`RImageIndex` values returned by `RMakeImage` for each frame. -/
structure SpriteBody where
  name : List Nat
  originX : Nat
  originY : Nat
  frameCount : Nat
  frames : List Nat
  width : Nat
  height : Nat
  separateCollision : Nat
  collisionMaps : List CollisionMap
deriving Repr, DecidableEq, Inhabited

structure Sprite where
  exists_ : Bool
  body : Option SpriteBody
deriving Repr, DecidableEq, Inhabited

/-- The BGRA→RGBA conversion loop: each 4-byte pixel's bytes 0 and 2 are
exchanged; a trailing group of fewer than 4 bytes (impossible for real
pixel data, whose length is `w*h*4`) is left as is. -/
def bgraSwapAll : List Nat → List Nat
  | b0 :: b1 :: b2 :: b3 :: rest => b2 :: b1 :: b0 :: b3 :: bgraSwapAll rest
  | [] => []
  | [b0] => [b0]
  | [b0, b1] => [b0, b1]
  | [b0, b1, b2] => [b0, b1, b2]

/-- Embeds the sprite frame loop: per frame a version skip, `frameW`,
`frameH`, `pixelDataLength`; a length mismatch against `frameW*frameH*4`
aborts the load (`return false`, modelled `none`); otherwise the pixel
region is BGRA-swapped and submitted via `RMakeImage`.  (The C code swaps
in place; since no later read revisits the pixel region, passing the
swapped copy to `RMakeImage` and reading on from the original buffer is
equivalent.)  Returns `(imageIndex, frameW, frameH)` per frame. -/
def parseFrames (data : List Nat) (originX originY : Nat) :
    Nat → Nat → RState → Option (List (Nat × Nat × Nat) × Nat × RState)
  | 0, pos, rst => some ([], pos, rst)
  | n + 1, pos, rst =>
    let pos1 := pos + 4
    let frameW := readDword data pos1
    let frameH := readDword data (pos1 + 4)
    let pixelDataLength := readDword data (pos1 + 8)
    if pixelDataLength ≠ frameW * frameH * 4 then none
    else
      let pixels := bgraSwapAll ((data.drop (pos1 + 12)).take pixelDataLength)
      match rMakeImage rst frameW frameH originX originY pixels with
      | none => none
      | some (ix, rst') =>
        match parseFrames data originX originY n (pos1 + 12 + pixelDataLength) rst' with
        | none => none
        | some (frames, pos', rst'') => some ((ix, frameW, frameH) :: frames, pos', rst'')

/-- Embeds one collision-map read: version skip, six dwords
(`width`, `height`, `left`, `right`, `bottom`, `top`), then
`width*height` dwords, each stored as a bool (nonzero = true). -/
def parseCollisionMap (data : List Nat) (pos : Nat) : CollisionMap × Nat :=
  let pos := pos + 4
  let width := readDword data pos
  let height := readDword data (pos + 4)
  let left := readDword data (pos + 8)
  let right := readDword data (pos + 12)
  let bottom := readDword data (pos + 16)
  let top := readDword data (pos + 20)
  let pos := pos + 24
  let maskSize := width * height
  let collision := (List.range maskSize).map fun i => readDword data (pos + 4 * i) != 0
  ({ width := width, height := height, left := left, right := right,
     bottom := bottom, top := top, collision := collision }, pos + 4 * maskSize)

/-- `n` consecutive collision maps (the separate-maps loop; `n = 1` for
the shared-map branch, whose read sequence is identical). -/
def parseCollisionMaps (data : List Nat) : Nat → Nat → List CollisionMap × Nat
  | 0, pos => ([], pos)
  | n + 1, pos =>
    let m := parseCollisionMap data pos
    let ms := parseCollisionMaps data n m.2
    (m.1 :: ms.1, ms.2)

/-- Embeds the per-sprite parse (`GameLoad`, lines 721–823): leading zero
dword → tombstone; otherwise name, version skip, origin, `frameCount`;
with frames: the frame loop (pixel-length mismatch aborts the load), the
sprite inheriting `width`/`height` from frame 0, then collision data
(separate maps or one shared map); a 0-frame sprite gets
`width = height = 1`, no frames and no collision data (its
`separateCollision`/`collisionMaps` stay unset — modelled as `0`/`[]`). -/
def parseSprite (data : List Nat) (rst : RState) : Option (Sprite × RState) :=
  if readDword data 0 = 0 then some ({ exists_ := false, body := none }, rst)
  else
    let s1 := readString data 4
    let pos := s1.2 + 4
    let originX := readDword data pos
    let originY := readDword data (pos + 4)
    let frameCount := readDword data (pos + 8)
    let pos := pos + 12
    if frameCount ≠ 0 then
      match parseFrames data originX originY frameCount pos rst with
      | none => none
      | some (frames, pos, rst') =>
        let separateCollision := readDword data pos
        let pos := pos + 4
        let maps :=
          if separateCollision ≠ 0 then parseCollisionMaps data frameCount pos
          else parseCollisionMaps data 1 pos
        some ({ exists_ := true,
                body := some {
                  name := s1.1, originX := originX, originY := originY,
                  frameCount := frameCount,
                  frames := frames.map (fun f => f.1),
                  width := frames.headI.2.1, height := frames.headI.2.2,
                  separateCollision := separateCollision,
                  collisionMaps := maps.1 } }, rst')
    else
      some ({ exists_ := true,
              body := some {
                name := s1.1, originX := originX, originY := originY,
                frameCount := 0, frames := [], width := 1, height := 1,
                separateCollision := 0, collisionMaps := [] } }, rst)

/-- The sprites section over its decompressed blocks, threading the
renderer state (frame submissions) and propagating parse failure. -/
def loadSprites : List (List Nat) → RState → Option (List Sprite × RState)
  | [], rst => some ([], rst)
  | b :: bs, rst =>
    (parseSprite b rst).bind fun p =>
      (loadSprites bs p.2).bind fun q => some (p.1 :: q.1, q.2)

/-! ## Extensions section (`GameLoad`, lines 505–611) -/

structure ExtensionFileFunction where
  name : List Nat
  externalName : List Nat
  convention : Nat
  argCount : Nat
  argTypes : List Nat
  returnType : Nat
deriving Repr, DecidableEq, Inhabited

structure ExtensionFileConst where
  name : List Nat
  value : List Nat
deriving Repr, DecidableEq, Inhabited

structure ExtensionFile where
  filename : List Nat
  kind : Nat
  initializer : List Nat
  finalizer : List Nat
  functions : List ExtensionFileFunction
  consts : List ExtensionFileConst
  dataLength : Nat := 0
  data : List Nat := []
deriving Repr, DecidableEq, Inhabited

structure Extension where
  name : List Nat
  folderName : List Nat
  fileCount : Nat
  files : List ExtensionFile
deriving Repr, DecidableEq, Inhabited

/-- A generic `for (; count > 0; count--)` parse loop (cursor-threading
helper). -/
def parseList {α : Type} (f : List Nat → Nat → α × Nat) (buf : List Nat) :
    Nat → Nat → List α × Nat
  | 0, pos => ([], pos)
  | n + 1, pos =>
    let a := f buf pos
    let as := parseList f buf n a.2
    (a.1 :: as.1, as.2)

/-- Embeds one `ExtensionFileFunction` read: version skip, `name`,
`externalName`, `convention`, a skipped always-zero dword, `argCount`,
17 `argTypes` dwords, `returnType`. -/
def parseExtFunction (buf : List Nat) (pos : Nat) : ExtensionFileFunction × Nat :=
  let pos := pos + 4
  let s1 := readString buf pos
  let s2 := readString buf s1.2
  let convention := readDword buf s2.2
  let pos := s2.2 + 4 + 4
  let argCount := readDword buf pos
  let pos := pos + 4
  let argTypes := (List.range 17).map fun j => readDword buf (pos + 4 * j)
  let pos := pos + 4 * 17
  let returnType := readDword buf pos
  ({ name := s1.1, externalName := s2.1, convention := convention,
     argCount := argCount, argTypes := argTypes, returnType := returnType },
   pos + 4)

/-- Embeds one `ExtensionFileConst` read: version skip, `name`, `value`. -/
def parseExtConst (buf : List Nat) (pos : Nat) : ExtensionFileConst × Nat :=
  let pos := pos + 4
  let s1 := readString buf pos
  let s2 := readString buf s1.2
  ({ name := s1.1, value := s2.1 }, s2.2)

/-- Embeds one extension file's header: version skip, `filename`, `kind`,
`initializer`, `finalizer`, the function list, the constant list.  (The
file's payload is read later from the decrypted data region.) -/
def parseExtFileHeader (buf : List Nat) (pos : Nat) : ExtensionFile × Nat :=
  let pos := pos + 4
  let s1 := readString buf pos
  let kind := readDword buf s1.2
  let pos := s1.2 + 4
  let s2 := readString buf pos
  let s3 := readString buf s2.2
  let functionCount := readDword buf s3.2
  let fs := parseList parseExtFunction buf functionCount (s3.2 + 4)
  let constCount := readDword buf fs.2
  let cs := parseList parseExtConst buf constCount (fs.2 + 4)
  ({ filename := s1.1, kind := kind, initializer := s2.1, finalizer := s3.1,
     functions := fs.1, consts := cs.1 }, cs.2)

/-- The external zlib `InflateBlock`: given the buffer and a position,
either the decompressed bytes and the advanced position, or `none` for an
inflate failure.  zlib is an external library, so it enters the model as a
parameter. -/
def InflateOracle : Type := List Nat → Nat → Option (List Nat × Nat)

/-- The result of the extensions section: either the parsed extensions
with the (decrypted-in-place) buffer and final cursor, or an early
`return` from `GameLoad` carrying the returned code. -/
inductive ExtLoadResult where
  | ok : List Extension → List Nat → Nat → ExtLoadResult
  | earlyReturn : Bool → ExtLoadResult
deriving Repr, DecidableEq

/-- Embeds the per-file data loop (`// Read the files`): each file's block
is inflated from the decrypted region and copied into the record; a failed
inflate is `none` — at which point the C code frees its buffers and
**`return true`**, reporting success to `GameLoad`'s caller. -/
def readExtFiles (inflate : InflateOracle) (buf : List Nat) :
    List ExtensionFile → Nat → Option (List ExtensionFile × Nat)
  | [], dataPos => some ([], dataPos)
  | f :: fs, dataPos =>
    match inflate buf dataPos with
    | none => none
    | some (out, dataPos') =>
      match readExtFiles inflate buf fs dataPos' with
      | none => none
      | some (fs', dataPos'') =>
        some ({ f with dataLength := out.length, data := out } :: fs', dataPos'')

/-- Embeds one iteration of the extensions loop: header fields, the
file-header list, the `endpos` dword delimiting the data region, the
in-place decryption of that region (`extDecryptRegion`; the seed dword
sits at its start and the cursor `dataPos` advances past it), and the
per-file inflate loop over the decrypted buffer. -/
def loadOneExtension (inflate : InflateOracle) (buf : List Nat) (pos : Nat) :
    Option (Extension × List Nat × Nat) :=
  let pos := pos + 4
  let s1 := readString buf pos
  let s2 := readString buf s1.2
  let fileCount := readDword buf s2.2
  let fs := parseList parseExtFileHeader buf fileCount (s2.2 + 4)
  let endpos := readDword buf fs.2
  let dataPos := fs.2 + 4
  let pos := dataPos + endpos
  let buf' := extDecryptRegion buf dataPos endpos
  match readExtFiles inflate buf' fs.1 (dataPos + 4) with
  | none => none
  | some (files', _) =>
    some ({ name := s1.1, folderName := s2.1, fileCount := fileCount,
            files := files' }, buf', pos)

/-- The extensions count loop.  An inflate failure inside
`loadOneExtension` becomes `earlyReturn true`: the original frees `data`,
`buffer` and `charTable` and then executes `return true` — the *success*
code — unlike every sibling error path, which returns `false`. -/
def loadExtensionsLoop (inflate : InflateOracle) :
    Nat → List Nat → Nat → ExtLoadResult
  | 0, buf, pos => .ok [] buf pos
  | n + 1, buf, pos =>
    match loadOneExtension inflate buf pos with
    | none => .earlyReturn true
    | some (ext, buf', pos') =>
      match loadExtensionsLoop inflate n buf' pos' with
      | .ok exts buf'' pos'' => .ok (ext :: exts) buf'' pos''
      | r => r

/-- Embeds the extensions section entry (`pos += 4; count = ReadDword;`
then the loop). -/
def loadExtensions (inflate : InflateOracle) (buf : List Nat) (pos : Nat) :
    ExtLoadResult :=
  let pos := pos + 4
  let count := readDword buf pos
  loadExtensionsLoop inflate count buf (pos + 4)

/-- Specification of the bind discipline, from claim C7's words: a run's
bind flag is set exactly when the atlas bound before it differs from the
run's atlas id, and after the run that id is the bound one. -/
inductive RBindsOk : Option Nat → List (List RDrawCommand × Bool) → Prop where
  | nil (b : Option Nat) : RBindsOk b []
  | cons (b : Option Nat) (run : List RDrawCommand) (flag : Bool)
      (rest : List (List RDrawCommand × Bool)) :
      flag = (b != run.headI.atlasId) →
      RBindsOk run.headI.atlasId rest →
      RBindsOk b ((run, flag) :: rest)

theorem rRenderFrame_nil (bound : Option Nat) :
    rRenderFrame bound [] = ([], bound) := by
  rw [rRenderFrame]

theorem rRenderFrame_cons (bound : Option Nat) (c : RDrawCommand)
    (rest : List RDrawCommand) :
    rRenderFrame bound (c :: rest) =
      ((c :: rest.takeWhile (fun d => d.atlasId == c.atlasId),
        bound != c.atlasId) ::
        (rRenderFrame c.atlasId
          (rest.dropWhile (fun d => d.atlasId == c.atlasId))).1,
       (rRenderFrame c.atlasId
          (rest.dropWhile (fun d => d.atlasId == c.atlasId))).2) := by
  rw [rRenderFrame]

theorem dropWhile_cons_head {α : Type} (p : α → Bool) :
    ∀ (l : List α) (d : α) (t : List α), l.dropWhile p = d :: t → p d = false := by
  intro l
  induction l with
  | nil => intro d t h; cases h
  | cons a l ih =>
    intro d t h
    rw [List.dropWhile_cons] at h
    split at h
    · exact ih d t h
    · cases h
      simp_all

theorem foldl_set_length (f : List RAtlasImage → RPreImage → RAtlasImage)
    (packed : List RPreImage) (imgs : List RAtlasImage) :
    (packed.foldl (fun imgs img => imgs.set img.imgIndex (f imgs img)) imgs).length =
      imgs.length := by
  induction packed generalizing imgs with
  | nil => rfl
  | cons p rest ih => simp [List.foldl_cons, ih]

theorem rCompile_preserves_aux (packer : RPacker) (n : Nat) :
    ∀ st fa st', st.maxTextures + 1 - fa ≤ n →
      rCompile packer st fa = some st' →
      st'.contextSet = st.contextSet ∧
      st'.atlasImages.length = st.atlasImages.length ∧
      st'.maxTextures = st.maxTextures := by
  induction n with
  | zero =>
    intro st fa st' hm h
    rw [rCompile] at h
    split_ifs at h with h1 h2 h3 h4
    · cases h
      exact ⟨rfl, rfl, rfl⟩
    · simp only at h
      split_ifs at h with h5
      · omega
      · cases h
        refine ⟨rfl, ?_, rfl⟩
        exact foldl_set_length _ _ _
  | succ n ih =>
    intro st fa st' hm h
    rw [rCompile] at h
    split_ifs at h with h1 h2 h3 h4
    · cases h
      exact ⟨rfl, rfl, rfl⟩
    · simp only at h
      split_ifs at h with h5
      · obtain ⟨hc, hl, hmx⟩ := ih _ _ _ (by simp; omega) h
        refine ⟨hc, ?_, hmx⟩
        rw [hl]
        exact foldl_set_length _ _ _
      · cases h
        refine ⟨rfl, ?_, rfl⟩
        exact foldl_set_length _ _ _

theorem rCompile_preserves (packer : RPacker) (st : RState) (fa : Nat)
    (st' : RState) (h : rCompile packer st fa = some st') :
    st'.contextSet = st.contextSet ∧
    st'.atlasImages.length = st.atlasImages.length ∧
    st'.maxTextures = st.maxTextures :=
  rCompile_preserves_aux packer (st.maxTextures + 1 - fa) st fa st' le_rfl h

theorem rMakeImage_contextSet (st : RState) (w h ox oy : Nat) (bytes : List Nat)
    (ix : Nat) (st' : RState) (heq : rMakeImage st w h ox oy bytes = some (ix, st')) :
    st'.contextSet = st.contextSet := by
  rw [rMakeImage] at heq
  rcases hc : st.contextSet with - | -
  · rw [if_neg (by rw [hc]; exact Bool.false_ne_true)] at heq
    cases heq
    exact hc
  · rw [if_pos hc] at heq
    cases heq

theorem rReach_contextSet (st : RState) (h : RReach st) :
    st.contextSet = false := by
  induction h with
  | init => rfl
  | makeWindow hst ih =>
    rw [rMakeGameWindow]
    split <;> simpa
  | makeImage hst heq ih => rw [rMakeImage_contextSet _ _ _ _ _ _ _ _ heq]; exact ih
  | drawPartial hst ih =>
    rw [rDrawPartialImage]
    split
    · exact ih
    · split
      · exact ih
      · exact ih
  | draw hst ih =>
    rw [rDrawImage, rDrawPartialImage]
    split
    · exact ih
    · split
      · exact ih
      · exact ih
  | startFrame hst ih => exact ih
  | compile hst heq ih => rw [(rCompile_preserves _ _ _ _ heq).1]; exact ih

theorem decrypt81Core_length (s : Nat × Nat) (l : List Nat) :
    (decrypt81Core s l).length = l.length := by
  induction s, l using decrypt81Core.induct <;>
    simp_all [decrypt81Core, dwordBytes]

theorem decrypt81_length (stream : List Nat) (pos seed2 : Nat) :
    (decrypt81 stream pos seed2).length = stream.length := by
  simp [decrypt81, decrypt81Core_length]
  omega

theorem scan81_zero_or_810 (buffer : List Nat) (pos fuel : Nat) :
    scan81 buffer pos fuel = 0 ∨ scan81 buffer pos fuel = 810 := by
  induction fuel generalizing pos with
  | zero => exact Or.inl rfl
  | succ fuel ih =>
    simp only [scan81]
    split
    · split
      · exact Or.inr rfl
      · exact ih (pos + 4)
    · exact ih (pos + 4)

theorem scan81_eq_810_iff (buffer : List Nat) (pos fuel : Nat) :
    scan81 buffer pos fuel = 810 ↔
      ∃ i < fuel, readDword buffer (pos + 4 * i) &&& 0xFF00FF00 = 0xF7000000 ∧
        readDword buffer (pos + 4 * i + 4) &&& 0x00FF00FF = 0x00140067 := by
  induction fuel generalizing pos with
  | zero => simp [scan81]
  | succ fuel ih =>
    simp only [scan81]
    split
    · split
      · simp only [true_iff]
        exact ⟨0, by omega, by simpa using ⟨by assumption, by assumption⟩⟩
      · rw [ih (pos + 4)]
        constructor
        · rintro ⟨i, hi, h1, h2⟩
          exact ⟨i + 1, by omega, by rw [show pos + 4 * (i + 1) = pos + 4 + 4 * i by omega]; exact h1,
            by rw [show pos + 4 * (i + 1) + 4 = pos + 4 + 4 * i + 4 by omega]; exact h2⟩
        · rintro ⟨i, hi, h1, h2⟩
          match i with
          | 0 => simp at h1 h2; exact absurd h2 (by simpa using by assumption)
          | i + 1 =>
            exact ⟨i, by omega, by rw [show pos + 4 + 4 * i = pos + 4 * (i + 1) by omega]; exact h1,
              by rw [show pos + 4 + 4 * i + 4 = pos + 4 * (i + 1) + 4 by omega]; exact h2⟩
    · rw [ih (pos + 4)]
      constructor
      · rintro ⟨i, hi, h1, h2⟩
        exact ⟨i + 1, by omega, by rw [show pos + 4 * (i + 1) = pos + 4 + 4 * i by omega]; exact h1,
          by rw [show pos + 4 * (i + 1) + 4 = pos + 4 + 4 * i + 4 by omega]; exact h2⟩
      · rintro ⟨i, hi, h1, h2⟩
        match i with
        | 0 => simp at h1; exact absurd h1 (by assumption)
        | i + 1 =>
          exact ⟨i, by omega, by rw [show pos + 4 + 4 * i = pos + 4 * (i + 1) by omega]; exact h1,
            by rw [show pos + 4 + 4 * i + 4 = pos + 4 * (i + 1) + 4 by omega]; exact h2⟩


theorem getD_set_self (l : List Nat) (i v : Nat) (h : i < l.length) :
    (l.set i v).getD i 0 = v := by
  simp [List.getD_eq_getElem?_getD, List.getElem?_set_self', h]

theorem getD_set_ne (l : List Nat) (i j v : Nat) (h : i ≠ j) :
    (l.set i v).getD j 0 = l.getD j 0 := by
  simp [List.getD_eq_getElem?_getD, List.getElem?_set_ne, h]

theorem extTableInit_length : extTableInit.length = 512 := by
  simp [extTableInit]

theorem extTableInit_getD (j : Nat) (h : j < 512) :
    extTableInit.getD j 0 = j % 256 := by
  simp [extTableInit, List.getD_eq_getElem?_getD, List.getElem?_map,
    List.getElem?_range, h]


theorem extSwapStep_length (s1 s2 : Nat) (t : List Nat) (i : Nat) :
    (extSwapStep s1 s2 t i).length = t.length := by
  simp [extSwapStep]

theorem extSwapStep_getD (s1 s2 : Nat) (t : List Nat) (i j : Nat)
    (hlen : t.length = 512) :
    (extSwapStep s1 s2 t i).getD j 0 =
      t.getD (swapIdx ((i * s2 + s1) % 2 ^ 32 % 0xFE + 1) j) 0 := by
  have hax : (i * s2 + s1) % 2 ^ 32 % 0xFE + 1 ≤ 254 := by
    have := Nat.mod_lt ((i * s2 + s1) % 2 ^ 32) (show 0 < 0xFE by norm_num)
    omega
  simp only [extSwapStep, swapIdx]
  set AX := (i * s2 + s1) % 2 ^ 32 % 0xFE + 1 with hAX
  rcases eq_or_ne j AX with h | h
  · subst h
    rw [getD_set_ne _ _ _ _ (by omega), getD_set_self _ _ _ (by omega), if_pos rfl]
  · rcases eq_or_ne j (AX + 1) with h' | h'
    · subst h'
      rw [getD_set_self _ _ _ (by simp; omega), if_neg h, if_pos rfl]
    · rw [getD_set_ne _ _ _ _ (Ne.symm h'), getD_set_ne _ _ _ _ (Ne.symm h),
        if_neg h, if_neg h']

theorem extTablePass1_succ (s1 s2 n : Nat) :
    extTablePass1 s1 s2 (n + 1) = extSwapStep s1 s2 (extTablePass1 s1 s2 n) (n + 1) := by
  simp [extTablePass1, List.range_succ]

theorem extTablePass1_invariants (s1 s2 n : Nat) :
    (extTablePass1 s1 s2 n).length = 512 ∧
    (∀ j, 1 ≤ j → j ≤ 255 →
      1 ≤ (extTablePass1 s1 s2 n).getD j 0 ∧ (extTablePass1 s1 s2 n).getD j 0 ≤ 255) ∧
    (extTablePass1 s1 s2 n).getD 256 0 = 0 ∧
    (∀ i j, 1 ≤ i → i ≤ 256 → 1 ≤ j → j ≤ 256 →
      (extTablePass1 s1 s2 n).getD i 0 = (extTablePass1 s1 s2 n).getD j 0 → i = j) := by
  induction n with
  | zero =>
    refine ⟨by rw [extTablePass1, List.range_zero, List.foldl_nil]; exact extTableInit_length,
      ?_, ?_, ?_⟩
    · intro j h1 h2
      rw [extTablePass1, List.range_zero, List.foldl_nil, extTableInit_getD j (by omega)]
      omega
    · rw [extTablePass1, List.range_zero, List.foldl_nil, extTableInit_getD 256 (by omega)]
    · intro i j hi1 hi2 hj1 hj2 heq
      rw [extTablePass1, List.range_zero, List.foldl_nil,
        extTableInit_getD i (by omega), extTableInit_getD j (by omega)] at heq
      omega
  | succ n ih =>
    obtain ⟨hlen, hval, h256, hinj⟩ := ih
    set AX := ((n + 1) * s2 + s1) % 2 ^ 32 % 0xFE + 1 with hAXdef
    have hax : 1 ≤ AX ∧ AX ≤ 254 := by
      have := Nat.mod_lt (((n + 1) * s2 + s1) % 2 ^ 32) (show 0 < 0xFE by norm_num)
      omega
    have hget : ∀ j, (extTablePass1 s1 s2 (n + 1)).getD j 0 =
        (extTablePass1 s1 s2 n).getD (swapIdx AX j) 0 := by
      intro j
      rw [extTablePass1_succ, extSwapStep_getD _ _ _ _ _ hlen]
    have hs_mem : ∀ j, 1 ≤ j → j ≤ 255 → 1 ≤ swapIdx AX j ∧ swapIdx AX j ≤ 255 := by
      intro j h1 h2
      simp only [swapIdx]
      split_ifs <;> omega
    have hs_mem256 : ∀ j, 1 ≤ j → j ≤ 256 → 1 ≤ swapIdx AX j ∧ swapIdx AX j ≤ 256 := by
      intro j h1 h2
      simp only [swapIdx]
      split_ifs <;> omega
    have hs_256 : swapIdx AX 256 = 256 := by
      simp only [swapIdx]
      split_ifs <;> omega
    have hs_inj : ∀ i j, swapIdx AX i = swapIdx AX j → i = j := by
      intro i j
      simp only [swapIdx]
      split_ifs <;> omega
    refine ⟨by rw [extTablePass1_succ, extSwapStep_length, hlen], ?_, ?_, ?_⟩
    · intro j h1 h2
      rw [hget]
      exact hval _ (hs_mem j h1 h2).1 (hs_mem j h1 h2).2
    · rw [hget, hs_256]
      exact h256
    · intro i j hi1 hi2 hj1 hj2 heq
      rw [hget, hget] at heq
      exact hs_inj i j
        (hinj _ _ (hs_mem256 i hi1 hi2).1 (hs_mem256 i hi1 hi2).2
          (hs_mem256 j hj1 hj2).1 (hs_mem256 j hj1 hj2).2 heq)

theorem extTablePass2_succ (t : List Nat) (k : Nat) :
    extTablePass2 t (k + 1) = extInvStep (extTablePass2 t k) k := by
  simp [extTablePass2, List.range_succ]

theorem extTablePass2_length (t : List Nat) (n : Nat) :
    (extTablePass2 t n).length = t.length := by
  induction n with
  | zero => rw [extTablePass2, List.range_zero, List.foldl_nil]
  | succ n ih =>
    rw [extTablePass2_succ]
    simp [extInvStep, ih]

/-- The second pass only writes at indices ≥ 257 while fewer than 256
iterations have run, so the low half of the table (indices ≤ 256) is
unchanged. -/
theorem extTablePass2_low (t : List Nat) (hlen : t.length = 512)
    (hval : ∀ j, 1 ≤ j → j ≤ 255 → 1 ≤ t.getD j 0 ∧ t.getD j 0 ≤ 255) :
    ∀ k, k ≤ 255 → ∀ j, j ≤ 256 → (extTablePass2 t k).getD j 0 = t.getD j 0 := by
  intro k
  induction k with
  | zero =>
    intro _ j _
    rw [extTablePass2, List.range_zero, List.foldl_nil]
  | succ k ih =>
    intro hk j hj
    rw [extTablePass2_succ]
    simp only [extInvStep]
    rw [ih (by omega) (k + 1) (by omega)]
    have hv := hval (k + 1) (by omega) (by omega)
    rw [getD_set_ne _ _ _ _ (by omega)]
    exact ih (by omega) j hj

/-- After all 256 iterations of the second pass the second half of the
table holds the inverse of the first half: the entry at index
`t[i] + 0x100` is the byte `i` (for the read positions `i = 1 .. 256`). -/
theorem extTablePass2_inverse (t : List Nat) (hlen : t.length = 512)
    (hval : ∀ j, 1 ≤ j → j ≤ 255 → 1 ≤ t.getD j 0 ∧ t.getD j 0 ≤ 255)
    (h256 : t.getD 256 0 = 0)
    (hinj : ∀ i j, 1 ≤ i → i ≤ 256 → 1 ≤ j → j ≤ 256 →
      t.getD i 0 = t.getD j 0 → i = j) :
    ∀ k, k ≤ 256 → ∀ i, 1 ≤ i → i ≤ k →
      (extTablePass2 t k).getD (t.getD i 0 + 256) 0 = i % 256 := by
  intro k
  induction k with
  | zero => intro _ i h1 h2; omega
  | succ k ih =>
    intro hk i h1 h2
    rw [extTablePass2_succ]
    simp only [extInvStep]
    rw [extTablePass2_low t hlen hval k (by omega) (k + 1) (by omega)]
    have hidx : t.getD (k + 1) 0 + 256 < 512 := by
      rcases Nat.lt_or_ge (k + 1) 256 with h | h
      · have := hval (k + 1) (by omega) (by omega)
        omega
      · have h' : k + 1 = 256 := by omega
        rw [h', h256]
        omega
    rcases eq_or_ne i (k + 1) with rfl | hne
    · rw [getD_set_self _ _ _ (by rw [extTablePass2_length, hlen]; exact hidx)]
    · have hvne : t.getD (k + 1) 0 + 256 ≠ t.getD i 0 + 256 := by
        intro hcontra
        exact hne (hinj i (k + 1) h1 (by omega) (by omega) (by omega) (by omega))
      rw [getD_set_ne _ _ _ _ hvne]
      exact ih (by omega) i h1 (by omega)

theorem getD_range (n i : Nat) (h : i < n) : (List.range n).getD i 0 = i := by
  simp [List.getD_eq_getElem?_getD, List.getElem?_range, h]

theorem getD_mapIdx (f : Nat → Nat → Nat) (l : List Nat) (i : Nat)
    (h : i < l.length) :
    (l.mapIdx f).getD i 0 = f i (l.getD i 0) := by
  simp [List.getD_eq_getElem?_getD, List.getElem?_mapIdx, h]

theorem extDecryptRegion_getD (buffer : List Nat) (start len j : Nat)
    (h : j < buffer.length) :
    (extDecryptRegion buffer start len).getD j 0 =
      if start + 5 ≤ j ∧ j < start + len then
        (extCharTable (readDword buffer start)).getD (buffer.getD j 0 + 0x100) 0
      else buffer.getD j 0 := by
  simp only [extDecryptRegion]
  rw [getD_mapIdx _ _ _ h]

theorem extDecryptRegion_length (buffer : List Nat) (start len : Nat) :
    (extDecryptRegion buffer start len).length = buffer.length := by
  simp [extDecryptRegion]

theorem extDecryptRegionClaim_getD (buffer : List Nat) (start len j : Nat)
    (h : j < buffer.length) :
    (extDecryptRegionClaim buffer start len).getD j 0 =
      if start + 5 ≤ j ∧ j < start + len then
        (extCharTableClaim (readDword buffer start)).getD (buffer.getD j 0 + 0x100) 0
      else buffer.getD j 0 := by
  simp only [extDecryptRegionClaim]
  rw [getD_mapIdx _ _ _ h]

theorem getD_drop (l : List Nat) (n i : Nat) :
    (l.drop n).getD i 0 = l.getD (n + i) 0 := by
  simp [List.getD_eq_getElem?_getD, List.getElem?_drop]

theorem readDword_drop (l : List Nat) (n p : Nat) :
    readDword (l.drop n) p = readDword l (n + p) := by
  simp only [readDword, getD_drop, Nat.add_assoc]

theorem decrypt81Core_getD_chunk (s : Nat × Nat) (l : List Nat) (k j : Nat)
    (hj : j < 4) (hk : 4 * k + 3 < l.length) :
    (decrypt81Core s l).getD (4 * k + j) 0 =
      (dwordBytes (readDword l (4 * k) ^^^ xorMaskSeq s k)).getD j 0 := by
  induction k generalizing s l with
  | zero =>
    match l, hk with
    | b0 :: b1 :: b2 :: b3 :: rest, _ =>
      have hd : readDword (b0 :: b1 :: b2 :: b3 :: rest) 0 =
          b0 + b1 * 256 + b2 * 65536 + b3 * 16777216 := rfl
      simp only [Nat.mul_zero, Nat.zero_add, decrypt81Core, hd]
      rw [List.getD_append]
      · rfl
      · simp [dwordBytes]; omega
  | succ k ih =>
    match l, hk with
    | b0 :: b1 :: b2 :: b3 :: rest, hk =>
      simp only [decrypt81Core]
      have h4 : (dwordBytes ((b0 + b1 * 256 + b2 * 65536 + b3 * 16777216) ^^^
          (getXorMask s).2)).length = 4 := rfl
      rw [List.getD_append_right _ _ _ _ (by rw [h4]; omega), h4]
      have hidx : 4 * (k + 1) + j - 4 = 4 * k + j := by omega
      rw [hidx, ih (getXorMask s).1 rest (by simp at hk; omega)]
      have hrd : readDword rest (4 * k) =
          readDword (b0 :: b1 :: b2 :: b3 :: rest) (4 * (k + 1)) := by
        have : readDword ((b0 :: b1 :: b2 :: b3 :: rest).drop 4) (4 * k) =
            readDword (b0 :: b1 :: b2 :: b3 :: rest) (4 + 4 * k) := readDword_drop ..
        simpa [show 4 + 4 * k = 4 * (k + 1) by omega] using this
      rw [hrd]
      rfl

theorem decrypt81Core_getD_tail (s : Nat × Nat) (l : List Nat) (i : Nat)
    (h : 4 * (l.length / 4) ≤ i) :
    (decrypt81Core s l).getD i 0 = l.getD i 0 := by
  induction s, l using decrypt81Core.induct generalizing i with
  | case1 s b0 b1 b2 b3 rest ih =>
    have hlen : (b0 :: b1 :: b2 :: b3 :: rest).length = rest.length + 4 := by simp
    have hdiv : (rest.length + 4) / 4 = rest.length / 4 + 1 := by omega
    have hi4 : 4 ≤ i := by rw [hlen, hdiv] at h; omega
    simp only [decrypt81Core]
    have h4 : (dwordBytes ((b0 + b1 * 256 + b2 * 65536 + b3 * 16777216) ^^^
        (getXorMask s).2)).length = 4 := rfl
    rw [List.getD_append_right _ _ _ _ (by rw [h4]; omega), h4]
    have hih := ih (i - 4) (by rw [hlen, hdiv] at h; omega)
    rw [hih]
    have : (b0 :: b1 :: b2 :: b3 :: rest).getD i 0 =
        ((b0 :: b1 :: b2 :: b3 :: rest).drop 4).getD (i - 4) 0 := by
      rw [getD_drop]
      congr 1
      omega
    rw [this]
    rfl
  | case2 => rfl
  | case3 => rfl
  | case4 => rfl
  | case5 => rfl

/-! ### Infrastructure for the `_Compile` packing analysis -/

theorem getD_set_self' {α : Type} [Inhabited α] (l : List α) (i : Nat) (v : α)
    (h : i < l.length) : (l.set i v).getD i default = v := by
  rw [List.getD_eq_getElem _ _ (by simpa using h)]
  simp

theorem getD_set_ne' {α : Type} [Inhabited α] (l : List α) (i j : Nat) (v : α)
    (h : i ≠ j) : (l.set i v).getD j default = l.getD j default := by
  simp [List.getD_eq_getElem?_getD, List.getElem?_set_ne h]

theorem rCompile_eq_of_checks (packer : RPacker) (st : RState) (fa : Nat)
    (h1 : ¬ st.tallest > st.maxTextureSize)
    (h2 : ¬ st.widest > st.maxTextureSize)
    (h3 : ¬ fa > st.maxTextures)
    (h4 : ¬ st.pixelCount = 0) :
    rCompile packer st fa =
      if (rCompileUnpacked packer st).length ≠ 0 then
        rCompile packer (rCompileNext packer st fa) (fa + 1)
      else some (rCompileNext packer st fa) := by
  rw [rCompile]
  rw [if_neg h1, if_neg h2, if_neg h3, if_neg h4]
  rfl

theorem rCompileSet_foldl_length (fa : Nat) :
    ∀ (l : List RPreImage) (imgs : List RAtlasImage),
      (l.foldl (rCompileSet fa) imgs).length = imgs.length := by
  intro l
  induction l with
  | nil => intro imgs; rfl
  | cons a l ih =>
    intro imgs
    rw [List.foldl_cons, ih]
    exact List.length_set _ _ _

theorem rCompileSet_foldl_frame (fa k : Nat) :
    ∀ (l : List RPreImage) (imgs : List RAtlasImage),
      (∀ p ∈ l, p.imgIndex ≠ k) →
      (l.foldl (rCompileSet fa) imgs).getD k default = imgs.getD k default := by
  intro l
  induction l with
  | nil => intro imgs _; rfl
  | cons a l ih =>
    intro imgs hk
    rw [List.foldl_cons, ih _ (fun p hp => hk p (List.mem_cons_of_mem a hp))]
    exact getD_set_ne' _ _ _ _ (hk a (List.mem_cons_self a l))

theorem rCompileSet_foldl_entry (fa : Nat) :
    ∀ (l : List RPreImage) (imgs : List RAtlasImage) (p : RPreImage),
      p ∈ l → (l.map RPreImage.imgIndex).Nodup → p.imgIndex < imgs.length →
      (l.foldl (rCompileSet fa) imgs).getD p.imgIndex default =
        { imgs.getD p.imgIndex default with
            x := some p.x, y := some p.y, w := p.w, h := p.h,
            atlasId := some fa } := by
  intro l
  induction l with
  | nil => intro imgs p hp; cases hp
  | cons a l ih =>
    intro imgs p hp hnd hlen
    rw [List.map_cons] at hnd
    have hnd1 : a.imgIndex ∉ l.map RPreImage.imgIndex := (List.nodup_cons.mp hnd).1
    have hnd2 : (l.map RPreImage.imgIndex).Nodup := (List.nodup_cons.mp hnd).2
    rw [List.foldl_cons]
    rcases List.mem_cons.mp hp with he | hp'
    · subst he
      have hfr : ∀ q ∈ l, q.imgIndex ≠ p.imgIndex := by
        intro q hq he2
        exact hnd1 (he2 ▸ List.mem_map_of_mem RPreImage.imgIndex hq)
      rw [rCompileSet_foldl_frame fa p.imgIndex l (rCompileSet fa imgs p) hfr]
      exact getD_set_self' _ _ _ hlen
    · have hne : p.imgIndex ≠ a.imgIndex := fun he2 =>
        hnd1 (he2 ▸ List.mem_map_of_mem RPreImage.imgIndex hp')
      have hlen' : p.imgIndex < (rCompileSet fa imgs a).length := by
        show p.imgIndex < (imgs.set _ _).length
        rw [List.length_set]
        exact hlen
      have hg : (rCompileSet fa imgs a).getD p.imgIndex default =
          imgs.getD p.imgIndex default :=
        getD_set_ne' _ _ _ _ (fun he2 => hne he2.symm)
      rw [ih (rCompileSet fa imgs a) p hp' hnd2 hlen', hg]

theorem filterMap_sublist_map {α β : Type} (f : α → Option β) (g : α → β)
    (hfg : ∀ a b, f a = some b → b = g a) :
    ∀ l : List α, List.Sublist (l.filterMap f) (l.map g) := by
  intro l
  induction l with
  | nil => simp
  | cons a l ih =>
    rw [List.map_cons, List.filterMap_cons]
    cases hfa : f a with
    | none => exact List.Sublist.cons (g a) ih
    | some b =>
      have hb : b = g a := hfg a b hfa
      subst hb
      exact List.Sublist.cons₂ (g a) ih

theorem map_fst_imgIndex :
    ∀ (l1 : List RPreImage) (l2 : List (Option (Nat × Nat))),
      l1.length ≤ l2.length →
      (l1.zip l2).map (fun q => q.1.imgIndex) = l1.map RPreImage.imgIndex := by
  intro l1
  induction l1 with
  | nil => intro l2 _; rfl
  | cons a l ih =>
    intro l2 h
    cases l2 with
    | nil => simp at h
    | cons b l2 =>
      simp only [List.zip_cons_cons, List.map_cons]
      rw [ih l2 (by simpa using h)]

theorem rCompilePacked_map_sublist (packer : RPacker) (st : RState)
    (hpl : (packer (rCompileRects st)).placed.length = st.preImages.length) :
    List.Sublist ((rCompilePacked packer st).map RPreImage.imgIndex)
      (st.preImages.map RPreImage.imgIndex) := by
  have h1 : (rCompilePacked packer st).map RPreImage.imgIndex =
      (st.preImages.zip (packer (rCompileRects st)).placed).filterMap
        (fun q => (q.2.map fun xy =>
          ({ q.1 with x := xy.1, y := xy.2 } : RPreImage)).map
            RPreImage.imgIndex) := by
    rw [rCompilePacked, List.map_filterMap]
  rw [h1, ← map_fst_imgIndex st.preImages (packer (rCompileRects st)).placed
    (le_of_eq hpl.symm)]
  apply filterMap_sublist_map
  intro q b hb
  obtain ⟨p0, hp0, he0⟩ := Option.map_eq_some'.mp hb
  obtain ⟨xy, hxy, he1⟩ := Option.map_eq_some'.mp hp0
  rw [← he0, ← he1]

theorem rCompileUnpacked_sublist (packer : RPacker) (st : RState)
    (hpl : (packer (rCompileRects st)).placed.length = st.preImages.length) :
    List.Sublist (rCompileUnpacked packer st) st.preImages := by
  have h1 := filterMap_sublist_map
    (fun q : RPreImage × Option (Nat × Nat) =>
      if q.2.isNone then some q.1 else none) Prod.fst
    (by
      intro a b hb
      simp only at hb
      split_ifs at hb
      exact (Option.some.inj hb).symm)
    (st.preImages.zip (packer (rCompileRects st)).placed)
  rw [List.map_fst_zip _ _ (le_of_eq hpl.symm)] at h1
  exact h1

theorem zip_pair_mem (packer : RPacker) (st : RState) (k : Nat)
    (hk : k < st.preImages.length)
    (hkq : k < (packer (rCompileRects st)).placed.length) :
    (st.preImages[k], (packer (rCompileRects st)).placed[k]) ∈
      st.preImages.zip (packer (rCompileRects st)).placed := by
  have hk0 : k < (st.preImages.zip (packer (rCompileRects st)).placed).length := by
    rw [List.length_zip]
    exact lt_inf_iff.mpr ⟨hk, hkq⟩
  have h := List.getElem_mem hk0
  rw [List.getElem_zip] at h
  exact h

theorem mem_rCompilePacked (packer : RPacker) (st : RState)
    (hpl : (packer (rCompileRects st)).placed.length = st.preImages.length)
    (p : RPreImage) (hp : p ∈ rCompilePacked packer st) :
    ∃ k, ∃ hk : k < st.preImages.length, ∃ x y : Nat,
      (packer (rCompileRects st)).placed.getD k none = some (x, y) ∧
      p = { st.preImages[k] with x := x, y := y } := by
  rw [rCompilePacked, List.mem_filterMap] at hp
  obtain ⟨q, hq, hfq⟩ := hp
  obtain ⟨k, hk0, hqe⟩ := List.mem_iff_getElem.mp hq
  have hkp : k < st.preImages.length := by
    rw [List.length_zip] at hk0
    exact lt_of_lt_of_le hk0 inf_le_left
  have hkq : k < (packer (rCompileRects st)).placed.length := by
    rw [hpl]
    exact hkp
  rw [List.getElem_zip] at hqe
  subst hqe
  obtain ⟨xy, hsome, hrec⟩ := Option.map_eq_some'.mp hfq
  have hsome' : (packer (rCompileRects st)).placed[k] = some xy := hsome
  refine ⟨k, hkp, xy.1, xy.2, ?_, ?_⟩
  · rw [List.getD_eq_getElem _ _ hkq, hsome']
  · rw [← hrec]

theorem mem_rCompilePacked_of (packer : RPacker) (st : RState)
    (hpl : (packer (rCompileRects st)).placed.length = st.preImages.length)
    (k : Nat) (hk : k < st.preImages.length) (x y : Nat)
    (hs : (packer (rCompileRects st)).placed.getD k none = some (x, y)) :
    { st.preImages[k] with x := x, y := y } ∈ rCompilePacked packer st := by
  have hkq : k < (packer (rCompileRects st)).placed.length := by
    rw [hpl]
    exact hk
  rw [rCompilePacked, List.mem_filterMap]
  refine ⟨(st.preImages[k], (packer (rCompileRects st)).placed[k]),
    zip_pair_mem packer st k hk hkq, ?_⟩
  have hge : (packer (rCompileRects st)).placed[k] = some (x, y) := by
    rw [← List.getD_eq_getElem _ _ hkq]
    exact hs
  show ((packer (rCompileRects st)).placed[k]).map _ = _
  rw [hge]
  rfl

theorem mem_rCompileUnpacked (packer : RPacker) (st : RState)
    (hpl : (packer (rCompileRects st)).placed.length = st.preImages.length)
    (q : RPreImage) :
    q ∈ rCompileUnpacked packer st ↔
      ∃ k, ∃ hk : k < st.preImages.length,
        (packer (rCompileRects st)).placed.getD k none = none ∧
        q = st.preImages[k] := by
  rw [rCompileUnpacked, List.mem_filterMap]
  constructor
  · rintro ⟨a, ha, hfa⟩
    obtain ⟨k, hk0, hae⟩ := List.mem_iff_getElem.mp ha
    have hkp : k < st.preImages.length := by
      rw [List.length_zip] at hk0
      exact lt_of_lt_of_le hk0 inf_le_left
    have hkq : k < (packer (rCompileRects st)).placed.length := by
      rw [hpl]
      exact hkp
    rw [List.getElem_zip] at hae
    subst hae
    cases hc : (packer (rCompileRects st)).placed[k] with
    | none =>
      refine ⟨k, hkp, ?_, ?_⟩
      · rw [List.getD_eq_getElem _ _ hkq, hc]
      · have hfa' : (if ((packer (rCompileRects st)).placed[k]).isNone then
            some st.preImages[k] else none) = some q := hfa
        rw [hc] at hfa'
        exact (Option.some.inj hfa').symm
    | some xy =>
      exfalso
      have hfa' : (if ((packer (rCompileRects st)).placed[k]).isNone then
          some st.preImages[k] else none) = some q := hfa
      rw [hc] at hfa'
      cases hfa'
  · rintro ⟨k, hk, hnone, rfl⟩
    have hkq : k < (packer (rCompileRects st)).placed.length := by
      rw [hpl]
      exact hk
    refine ⟨(st.preImages[k], (packer (rCompileRects st)).placed[k]),
      zip_pair_mem packer st k hk hkq, ?_⟩
    have hge : (packer (rCompileRects st)).placed[k] = none := by
      rw [← List.getD_eq_getElem _ _ hkq]
      exact hnone
    show (if ((packer (rCompileRects st)).placed[k]).isNone then
        some st.preImages[k] else none) = some st.preImages[k]
    rw [hge]
    rfl

theorem imgIndex_pos_inj (l : List RPreImage)
    (hnd : (l.map RPreImage.imgIndex).Nodup) (i j : Nat)
    (hi : i < l.length) (hj : j < l.length)
    (he : (l[i]).imgIndex = (l[j]).imgIndex) : i = j := by
  have hi' : i < (l.map RPreImage.imgIndex).length := by simpa using hi
  have hj' : j < (l.map RPreImage.imgIndex).length := by simpa using hj
  have he' : (l.map RPreImage.imgIndex)[i] = (l.map RPreImage.imgIndex)[j] := by
    rw [List.getElem_map, List.getElem_map]
    exact he
  exact (List.Nodup.getElem_inj_iff hnd).mp he'

theorem rCompileRects_getD (st : RState) (k : Nat)
    (hk : k < st.preImages.length) :
    (rCompileRects st).getD k default =
      ((st.preImages[k]).w, (st.preImages[k]).h) := by
  have hk' : k < (st.preImages.map fun p => (p.w, p.h)).length := by
    simpa using hk
  show (st.preImages.map fun p => (p.w, p.h)).getD k default = _
  rw [List.getD_eq_getElem _ _ hk']
  exact List.getElem_map _

theorem rCompile_packs_aux (packer : RPacker)
    (Hplen : ∀ rects, (packer rects).placed.length = rects.length)
    (Hdisj : ∀ rects i j xi yi xj yj, i < rects.length → j < rects.length →
      i ≠ j → (packer rects).placed.getD i none = some (xi, yi) →
      (packer rects).placed.getD j none = some (xj, yj) →
      rectDisjoint xi yi (rects.getD i default).1 (rects.getD i default).2
        xj yj (rects.getD j default).1 (rects.getD j default).2) :
    ∀ n : Nat, ∀ st : RState, ∀ fa : Nat, ∀ st' : RState,
      st.maxTextures + 1 - fa ≤ n →
      (st.preImages.map RPreImage.imgIndex).Nodup →
      (∀ p ∈ st.preImages, p.imgIndex < st.atlasImages.length) →
      st.pixelCount ≠ 0 →
      rCompile packer st fa = some st' →
      (∀ p ∈ st.preImages, ∃ r xp yp, fa ≤ r ∧ r ≤ st.maxTextures ∧
        st'.atlasImages.getD p.imgIndex default =
          { atlasId := some r, x := some xp, y := some yp, w := p.w, h := p.h,
            originX := (st.atlasImages.getD p.imgIndex default).originX,
            originY := (st.atlasImages.getD p.imgIndex default).originY }) ∧
      (∀ k : Nat, (∀ p ∈ st.preImages, p.imgIndex ≠ k) →
        st'.atlasImages.getD k default = st.atlasImages.getD k default) ∧
      (∀ p ∈ st.preImages, ∀ q ∈ st.preImages, p.imgIndex ≠ q.imgIndex →
        ∀ r xp yp xq yq,
          (st'.atlasImages.getD p.imgIndex default).atlasId = some r →
          (st'.atlasImages.getD q.imgIndex default).atlasId = some r →
          (st'.atlasImages.getD p.imgIndex default).x = some xp →
          (st'.atlasImages.getD p.imgIndex default).y = some yp →
          (st'.atlasImages.getD q.imgIndex default).x = some xq →
          (st'.atlasImages.getD q.imgIndex default).y = some yq →
          rectDisjoint xp yp (st'.atlasImages.getD p.imgIndex default).w
            (st'.atlasImages.getD p.imgIndex default).h xq yq
            (st'.atlasImages.getD q.imgIndex default).w
            (st'.atlasImages.getD q.imgIndex default).h) := by
  intro n
  induction n with
  | zero =>
    intro st fa st' hm hnd hlt hpx h
    have h3 : fa > st.maxTextures := by omega
    by_cases h1 : st.tallest > st.maxTextureSize
    · rw [rCompile, if_pos h1] at h
      cases h
    by_cases h2 : st.widest > st.maxTextureSize
    · rw [rCompile, if_neg h1, if_pos h2] at h
      cases h
    rw [rCompile, if_neg h1, if_neg h2, if_pos h3] at h
    cases h
  | succ n ih =>
    intro st fa st' hm hnd hlt hpx h
    by_cases h1 : st.tallest > st.maxTextureSize
    · rw [rCompile, if_pos h1] at h
      cases h
    by_cases h2 : st.widest > st.maxTextureSize
    · rw [rCompile, if_neg h1, if_pos h2] at h
      cases h
    by_cases h3 : fa > st.maxTextures
    · rw [rCompile, if_neg h1, if_neg h2, if_pos h3] at h
      cases h
    rw [rCompile_eq_of_checks packer st fa h1 h2 h3 hpx] at h
    have HplenS : (packer (rCompileRects st)).placed.length =
        st.preImages.length := by
      rw [Hplen]
      simp [rCompileRects]
    have hndP : ((rCompilePacked packer st).map RPreImage.imgIndex).Nodup :=
      List.Nodup.sublist (rCompilePacked_map_sublist packer st HplenS) hnd
    have hPneQ : ∀ p ∈ rCompilePacked packer st,
        ∀ q ∈ rCompileUnpacked packer st, p.imgIndex ≠ q.imgIndex := by
      intro p hp q hq he
      obtain ⟨j, hj, x, y, hs, rfl⟩ := mem_rCompilePacked packer st HplenS p hp
      obtain ⟨k, hk, hn0, rfl⟩ := (mem_rCompileUnpacked packer st HplenS q).mp hq
      have hjk : j = k := imgIndex_pos_inj st.preImages hnd j k hj hk he
      rw [hjk, hn0] at hs
      cases hs
    by_cases hu : (rCompileUnpacked packer st).length ≠ 0
    · -- at least one image was not packed this round: a recursive call runs
      rw [if_pos hu] at h
      have hm2 : (rCompileNext packer st fa).maxTextures + 1 - (fa + 1) ≤ n := by
        show st.maxTextures + 1 - (fa + 1) ≤ n
        omega
      have hnd2 : ((rCompileNext packer st fa).preImages.map
          RPreImage.imgIndex).Nodup := by
        show ((rCompileUnpacked packer st).map RPreImage.imgIndex).Nodup
        exact List.Nodup.sublist
          (List.Sublist.map RPreImage.imgIndex
            (rCompileUnpacked_sublist packer st HplenS)) hnd
      have hlt2 : ∀ p ∈ (rCompileNext packer st fa).preImages,
          p.imgIndex < (rCompileNext packer st fa).atlasImages.length := by
        intro p hp
        have hp' : p ∈ st.preImages :=
          (rCompileUnpacked_sublist packer st HplenS).subset hp
        show p.imgIndex < (rCompileFold packer st fa).length
        rw [show (rCompileFold packer st fa).length = st.atlasImages.length from
          rCompileSet_foldl_length fa _ _]
        exact hlt p hp'
      have hpx2 : (rCompileNext packer st fa).pixelCount ≠ 0 := hpx
      obtain ⟨K1, K2, K3⟩ :=
        ih (rCompileNext packer st fa) (fa + 1) st' hm2 hnd2 hlt2 hpx2 h
      refine ⟨?_, ?_, ?_⟩
      · intro p hp
        obtain ⟨ip, hip, hpe⟩ := List.mem_iff_getElem.mp hp
        subst hpe
        cases hc : (packer (rCompileRects st)).placed.getD ip none with
        | some xy =>
          have hmem : { st.preImages[ip] with x := xy.1, y := xy.2 } ∈
              rCompilePacked packer st :=
            mem_rCompilePacked_of packer st HplenS ip hip xy.1 xy.2
              (hc.trans rfl)
          have hcond : ∀ q ∈ (rCompileNext packer st fa).preImages,
              q.imgIndex ≠ (st.preImages[ip]).imgIndex := by
            intro q hq he
            exact hPneQ _ hmem q hq he.symm
          have hfr := K2 ((st.preImages[ip]).imgIndex) hcond
          have hlen1 : ({ st.preImages[ip] with x := xy.1, y := xy.2 } :
              RPreImage).imgIndex < st.atlasImages.length :=
            hlt st.preImages[ip] (List.getElem_mem hip)
          have hent := rCompileSet_foldl_entry fa (rCompilePacked packer st)
            st.atlasImages _ hmem hndP hlen1
          refine ⟨fa, xy.1, xy.2, le_refl fa, by omega, ?_⟩
          rw [hfr]
          exact hent
        | none =>
          have hqmem : st.preImages[ip] ∈ rCompileUnpacked packer st :=
            (mem_rCompileUnpacked packer st HplenS _).mpr ⟨ip, hip, hc, rfl⟩
          obtain ⟨r, x, y, hr1, hr2, he⟩ := K1 _ hqmem
          have hfr2 : (rCompileNext packer st fa).atlasImages.getD
              (st.preImages[ip]).imgIndex default =
              st.atlasImages.getD (st.preImages[ip]).imgIndex default := by
            show (rCompileFold packer st fa).getD _ default = _
            exact rCompileSet_foldl_frame fa _ _ _
              (fun p' hp' => hPneQ p' hp' _ hqmem)
          refine ⟨r, x, y, by omega, hr2, ?_⟩
          rw [he, hfr2]
      · intro k hk
        have h2' := K2 k
          (fun q hq => hk q ((rCompileUnpacked_sublist packer st HplenS).subset hq))
        rw [h2']
        show (rCompileFold packer st fa).getD k default = _
        exact rCompileSet_foldl_frame fa k _ _ (by
          intro p' hp'
          obtain ⟨j, hj, x, y, hs, rfl⟩ :=
            mem_rCompilePacked packer st HplenS p' hp'
          exact hk st.preImages[j] (List.getElem_mem hj))
      · intro p hp q hq hne r xp yp xq yq hpr hqr hpx1 hpy1 hqx1 hqy1
        obtain ⟨ip, hip, hpe⟩ := List.mem_iff_getElem.mp hp
        subst hpe
        obtain ⟨iq, hiq, hqe⟩ := List.mem_iff_getElem.mp hq
        subst hqe
        cases hcp : (packer (rCompileRects st)).placed.getD ip none with
        | some xyp =>
          have hmemp : { st.preImages[ip] with x := xyp.1, y := xyp.2 } ∈
              rCompilePacked packer st :=
            mem_rCompilePacked_of packer st HplenS ip hip xyp.1 xyp.2
              (hcp.trans rfl)
          have hep : st'.atlasImages.getD (st.preImages[ip]).imgIndex default =
              { st.atlasImages.getD (st.preImages[ip]).imgIndex default with
                  x := some xyp.1, y := some xyp.2, w := (st.preImages[ip]).w,
                  h := (st.preImages[ip]).h, atlasId := some fa } := by
            rw [K2 ((st.preImages[ip]).imgIndex)
              (fun q' hq' he => hPneQ _ hmemp q' hq' he.symm)]
            show (rCompileFold packer st fa).getD _ default = _
            exact rCompileSet_foldl_entry fa (rCompilePacked packer st)
              st.atlasImages _ hmemp hndP (hlt st.preImages[ip] (List.getElem_mem hip))
          cases hcq : (packer (rCompileRects st)).placed.getD iq none with
          | some xyq =>
            have hmemq : { st.preImages[iq] with x := xyq.1, y := xyq.2 } ∈
                rCompilePacked packer st :=
              mem_rCompilePacked_of packer st HplenS iq hiq xyq.1 xyq.2
                (hcq.trans rfl)
            have heq2 : st'.atlasImages.getD (st.preImages[iq]).imgIndex default =
                { st.atlasImages.getD (st.preImages[iq]).imgIndex default with
                    x := some xyq.1, y := some xyq.2, w := (st.preImages[iq]).w,
                    h := (st.preImages[iq]).h, atlasId := some fa } := by
              rw [K2 ((st.preImages[iq]).imgIndex)
                (fun q' hq' he => hPneQ _ hmemq q' hq' he.symm)]
              show (rCompileFold packer st fa).getD _ default = _
              exact rCompileSet_foldl_entry fa (rCompilePacked packer st)
                st.atlasImages _ hmemq hndP (hlt st.preImages[iq] (List.getElem_mem hiq))
            rw [hep] at hpx1 hpy1
            rw [heq2] at hqx1 hqy1
            have hxp : xp = xyp.1 := (Option.some.inj hpx1).symm
            have hyp : yp = xyp.2 := (Option.some.inj hpy1).symm
            have hxq : xq = xyq.1 := (Option.some.inj hqx1).symm
            have hyq : yq = xyq.2 := (Option.some.inj hqy1).symm
            have hipiq : ip ≠ iq := fun he => hne (by subst he; rfl)
            have hd := Hdisj (rCompileRects st) ip iq xyp.1 xyp.2 xyq.1 xyq.2
              (by rw [rCompileRects, List.length_map]; exact hip)
              (by rw [rCompileRects, List.length_map]; exact hiq)
              hipiq (hcp.trans rfl) (hcq.trans rfl)
            rw [rCompileRects_getD st ip hip, rCompileRects_getD st iq hiq] at hd
            rw [hep, heq2, hxp, hyp, hxq, hyq]
            exact hd
          | none =>
            exfalso
            have hqmem : st.preImages[iq] ∈ rCompileUnpacked packer st :=
              (mem_rCompileUnpacked packer st HplenS _).mpr ⟨iq, hiq, hcq, rfl⟩
            obtain ⟨r2, x2, y2, hr1, hr2, he2⟩ := K1 _ hqmem
            rw [hep] at hpr
            have hrfa : fa = r := Option.some.inj hpr
            rw [he2] at hqr
            have hr2r : r2 = r := Option.some.inj hqr
            omega
        | none =>
          have hpmem : st.preImages[ip] ∈ rCompileUnpacked packer st :=
            (mem_rCompileUnpacked packer st HplenS _).mpr ⟨ip, hip, hcp, rfl⟩
          cases hcq : (packer (rCompileRects st)).placed.getD iq none with
          | some xyq =>
            exfalso
            have hmemq : { st.preImages[iq] with x := xyq.1, y := xyq.2 } ∈
                rCompilePacked packer st :=
              mem_rCompilePacked_of packer st HplenS iq hiq xyq.1 xyq.2
                (hcq.trans rfl)
            have heq2 : st'.atlasImages.getD (st.preImages[iq]).imgIndex default =
                { st.atlasImages.getD (st.preImages[iq]).imgIndex default with
                    x := some xyq.1, y := some xyq.2, w := (st.preImages[iq]).w,
                    h := (st.preImages[iq]).h, atlasId := some fa } := by
              rw [K2 ((st.preImages[iq]).imgIndex)
                (fun q' hq' he => hPneQ _ hmemq q' hq' he.symm)]
              show (rCompileFold packer st fa).getD _ default = _
              exact rCompileSet_foldl_entry fa (rCompilePacked packer st)
                st.atlasImages _ hmemq hndP (hlt st.preImages[iq] (List.getElem_mem hiq))
            obtain ⟨r2, x2, y2, hr1, hr2, he2⟩ := K1 _ hpmem
            rw [he2] at hpr
            have hr2r : r2 = r := Option.some.inj hpr
            rw [heq2] at hqr
            have hrfa : fa = r := Option.some.inj hqr
            omega
          | none =>
            have hqmem : st.preImages[iq] ∈ rCompileUnpacked packer st :=
              (mem_rCompileUnpacked packer st HplenS _).mpr ⟨iq, hiq, hcq, rfl⟩
            exact K3 _ hpmem _ hqmem hne r xp yp xq yq hpr hqr hpx1 hpy1
              hqx1 hqy1
    · -- every image was packed this round: the round is the last one
      rw [if_neg hu] at h
      have hunil : rCompileUnpacked packer st = [] :=
        List.length_eq_zero.mp (not_not.mp hu)
      cases h
      have hall : ∀ k, k < st.preImages.length →
          ∃ xy : Nat × Nat,
            (packer (rCompileRects st)).placed.getD k none = some xy := by
        intro k hk
        cases hc : (packer (rCompileRects st)).placed.getD k none with
        | some xy => exact ⟨xy, rfl⟩
        | none =>
          exfalso
          have hmem : st.preImages[k] ∈ rCompileUnpacked packer st :=
            (mem_rCompileUnpacked packer st HplenS _).mpr ⟨k, hk, hc, rfl⟩
          rw [hunil] at hmem
          cases hmem
      refine ⟨?_, ?_, ?_⟩
      · intro p hp
        obtain ⟨ip, hip, hpe⟩ := List.mem_iff_getElem.mp hp
        subst hpe
        obtain ⟨xy, hc⟩ := hall ip hip
        have hmem : { st.preImages[ip] with x := xy.1, y := xy.2 } ∈
            rCompilePacked packer st :=
          mem_rCompilePacked_of packer st HplenS ip hip xy.1 xy.2
            (hc.trans rfl)
        refine ⟨fa, xy.1, xy.2, le_refl fa, by omega, ?_⟩
        show (rCompileFold packer st fa).getD _ default = _
        exact rCompileSet_foldl_entry fa (rCompilePacked packer st)
          st.atlasImages _ hmem hndP (hlt st.preImages[ip] (List.getElem_mem hip))
      · intro k hk
        show (rCompileFold packer st fa).getD k default = _
        exact rCompileSet_foldl_frame fa k _ _ (by
          intro p' hp'
          obtain ⟨j, hj, x, y, hs, rfl⟩ :=
            mem_rCompilePacked packer st HplenS p' hp'
          exact hk st.preImages[j] (List.getElem_mem hj))
      · intro p hp q hq hne r xp yp xq yq hpr hqr hpx1 hpy1 hqx1 hqy1
        obtain ⟨ip, hip, hpe⟩ := List.mem_iff_getElem.mp hp
        subst hpe
        obtain ⟨iq, hiq, hqe⟩ := List.mem_iff_getElem.mp hq
        subst hqe
        obtain ⟨xyp, hcp⟩ := hall ip hip
        obtain ⟨xyq, hcq⟩ := hall iq hiq
        have hmemp : { st.preImages[ip] with x := xyp.1, y := xyp.2 } ∈
            rCompilePacked packer st :=
          mem_rCompilePacked_of packer st HplenS ip hip xyp.1 xyp.2
            (hcp.trans rfl)
        have hmemq : { st.preImages[iq] with x := xyq.1, y := xyq.2 } ∈
            rCompilePacked packer st :=
          mem_rCompilePacked_of packer st HplenS iq hiq xyq.1 xyq.2
            (hcq.trans rfl)
        have hep : (rCompileNext packer st fa).atlasImages.getD
            (st.preImages[ip]).imgIndex default =
            { st.atlasImages.getD (st.preImages[ip]).imgIndex default with
                x := some xyp.1, y := some xyp.2, w := (st.preImages[ip]).w,
                h := (st.preImages[ip]).h, atlasId := some fa } := by
          show (rCompileFold packer st fa).getD _ default = _
          exact rCompileSet_foldl_entry fa (rCompilePacked packer st)
            st.atlasImages _ hmemp hndP (hlt st.preImages[ip] (List.getElem_mem hip))
        have heq2 : (rCompileNext packer st fa).atlasImages.getD
            (st.preImages[iq]).imgIndex default =
            { st.atlasImages.getD (st.preImages[iq]).imgIndex default with
                x := some xyq.1, y := some xyq.2, w := (st.preImages[iq]).w,
                h := (st.preImages[iq]).h, atlasId := some fa } := by
          show (rCompileFold packer st fa).getD _ default = _
          exact rCompileSet_foldl_entry fa (rCompilePacked packer st)
            st.atlasImages _ hmemq hndP (hlt st.preImages[iq] (List.getElem_mem hiq))
        rw [hep] at hpx1 hpy1
        rw [heq2] at hqx1 hqy1
        have hxp : xp = xyp.1 := (Option.some.inj hpx1).symm
        have hyp : yp = xyp.2 := (Option.some.inj hpy1).symm
        have hxq : xq = xyq.1 := (Option.some.inj hqx1).symm
        have hyq : yq = xyq.2 := (Option.some.inj hqy1).symm
        have hipiq : ip ≠ iq := fun he => hne (by subst he; rfl)
        have hd := Hdisj (rCompileRects st) ip iq xyp.1 xyp.2 xyq.1 xyq.2
          (by rw [rCompileRects, List.length_map]; exact hip)
          (by rw [rCompileRects, List.length_map]; exact hiq)
          hipiq (hcp.trans rfl) (hcq.trans rfl)
        rw [rCompileRects_getD st ip hip, rCompileRects_getD st iq hiq] at hd
        rw [hep, heq2, hxp, hyp, hxq, hyq]
        exact hd

end GM8

/-- C4 counterexample: the code's swap pass is
`for (i = 1; i < 0x2711; i++)`, i.e. it runs the swap also for `i = 10000`,
while the claim says "exactly the indices i = 1..9999".  At seed dword 0
the extra swap exchanges table positions 57 and 58, so decrypting a
concrete data region that contains every byte value (region
`[0, 261)` over the buffer `[0,0,0,0,0] ++ [0,...,255]`, seed dword 0)
gives a different result than the claim's construction. -/
theorem C4_counterexample :
    GM8.extDecryptRegion ([0, 0, 0, 0, 0] ++ List.range 256) 0 261 ≠
      GM8.extDecryptRegionClaim ([0, 0, 0, 0, 0] ++ List.range 256) 0 261 := by
  obtain ⟨hlen, hval, h256, hinj⟩ := GM8.extTablePass1_invariants 0 6 9999
  obtain ⟨hlen', hval', h256', hinj'⟩ := GM8.extTablePass1_invariants 0 6 10000
  have hs1 : GM8.intToUInt32 (GM8.extSeeds 0).1 = 0 := by decide
  have hs2 : GM8.intToUInt32 (GM8.extSeeds 0).2 = 6 := by decide
  have hstep : GM8.extTablePass1 0 6 10000 =
      GM8.extSwapStep 0 6 (GM8.extTablePass1 0 6 9999) 10000 := by
    have h := GM8.extTablePass1_succ 0 6 9999
    norm_num at h
    exact h
  have hAX : (10000 * 6 + 0) % 2 ^ 32 % 0xFE + 1 = 57 := by norm_num
  have hget58 : (GM8.extTablePass1 0 6 10000).getD 58 0 =
      (GM8.extTablePass1 0 6 9999).getD 57 0 := by
    rw [hstep, GM8.extSwapStep_getD 0 6 _ 10000 58 hlen, hAX,
      show GM8.swapIdx 57 58 = 57 by decide]
  have haval := hval 57 (by omega) (by omega)
  have hcode_tab : GM8.extCharTable 0 =
      GM8.extTablePass2 (GM8.extTablePass1 0 6 10000) 256 := by
    simp only [GM8.extCharTable, hs1, hs2]
  have hclaim_tab : GM8.extCharTableClaim 0 =
      GM8.extTablePass2 (GM8.extTablePass1 0 6 9999) 256 := by
    simp only [GM8.extCharTableClaim, hs1, hs2]
  have hcode_at : (GM8.extCharTable 0).getD
      ((GM8.extTablePass1 0 6 9999).getD 57 0 + 256) 0 = 58 := by
    rw [hcode_tab]
    have h := GM8.extTablePass2_inverse (GM8.extTablePass1 0 6 10000)
      hlen' hval' h256' hinj' 256 le_rfl 58 (by omega) (by omega)
    rw [hget58] at h
    simpa using h
  have hclaim_at : (GM8.extCharTableClaim 0).getD
      ((GM8.extTablePass1 0 6 9999).getD 57 0 + 256) 0 = 57 := by
    rw [hclaim_tab]
    have h := GM8.extTablePass2_inverse (GM8.extTablePass1 0 6 9999)
      hlen hval h256 hinj 256 le_rfl 57 (by omega) (by omega)
    simpa using h
  intro heq
  have hblen : ([0, 0, 0, 0, 0] ++ List.range 256 : List Nat).length = 261 := by simp
  have hbufp : ([0, 0, 0, 0, 0] ++ List.range 256 : List Nat).getD
      (5 + (GM8.extTablePass1 0 6 9999).getD 57 0) 0 =
      (GM8.extTablePass1 0 6 9999).getD 57 0 := by
    rw [List.getD_append_right _ _ _ _ (by simp)]
    have harith : 5 + (GM8.extTablePass1 0 6 9999).getD 57 0 -
        ([0, 0, 0, 0, 0] : List Nat).length =
        (GM8.extTablePass1 0 6 9999).getD 57 0 := by
      simp
    rw [harith, GM8.getD_range _ _ (by omega)]
  have hread : GM8.readDword ([0, 0, 0, 0, 0] ++ List.range 256) 0 = 0 := rfl
  have hce := congrArg
    (fun l => l.getD (5 + (GM8.extTablePass1 0 6 9999).getD 57 0) 0) heq
  simp only at hce
  rw [GM8.extDecryptRegion_getD _ _ _ _ (by rw [hblen]; omega),
    GM8.extDecryptRegionClaim_getD _ _ _ _ (by rw [hblen]; omega),
    if_pos ⟨by omega, by omega⟩, if_pos ⟨by omega, by omega⟩,
    hread, hbufp, hcode_at, hclaim_at] at hce
  omega

/-- C4 as amended: the per-extension-file cipher derives
`seed2 = (seed1 % 250) + 6` and `seed1 = seed1 / 250` from one dword (each
adjusted by +100 if negative — `extSeeds`), builds a 512-entry table by a
pseudo-random swap pass over exactly the indices i = 1..10000 (not 1..9999)
using swap position `((i*seed2 + seed1) % 254) + 1`, derives the table's
second half as the inverse mapping (the entry at `table[i] + 0x100` is the
byte `i`), and substitutes every byte of the extension file's data region
(indices `[start+5, start+len)`) in place through the combined table,
leaving all other bytes unchanged. -/
theorem C4_ext_cipher_amended :
    (∀ d : Nat, GM8.extCharTable d =
      GM8.extTablePass2
        (GM8.extTablePass1 (GM8.intToUInt32 (GM8.extSeeds d).1)
          (GM8.intToUInt32 (GM8.extSeeds d).2) 10000) 256) ∧
    (∀ d i : Nat, 1 ≤ i → i ≤ 256 →
      (GM8.extCharTable d).getD
        ((GM8.extTablePass1 (GM8.intToUInt32 (GM8.extSeeds d).1)
          (GM8.intToUInt32 (GM8.extSeeds d).2) 10000).getD i 0 + 256) 0 = i % 256) ∧
    (∀ buffer start len j, j < List.length buffer →
      (start + 5 ≤ j ∧ j < start + len →
        (GM8.extDecryptRegion buffer start len).getD j 0 =
          (GM8.extCharTable (GM8.readDword buffer start)).getD
            (buffer.getD j 0 + 256) 0) ∧
      (¬(start + 5 ≤ j ∧ j < start + len) →
        (GM8.extDecryptRegion buffer start len).getD j 0 = buffer.getD j 0)) ∧
    (∀ buffer start len,
      (GM8.extDecryptRegion buffer start len).length = List.length buffer) := by
  refine ⟨fun d => rfl, fun d i h1 h2 => ?_, fun buffer start len j hj => ?_, fun buffer start len => GM8.extDecryptRegion_length buffer start len⟩
  · obtain ⟨hlen, hval, h256, hinj⟩ :=
      GM8.extTablePass1_invariants (GM8.intToUInt32 (GM8.extSeeds d).1)
        (GM8.intToUInt32 (GM8.extSeeds d).2) 10000
    exact GM8.extTablePass2_inverse _ hlen hval h256 hinj 256 le_rfl i h1 h2
  · constructor
    · intro h
      rw [GM8.extDecryptRegion_getD _ _ _ _ hj, if_pos h]
    · intro h
      rw [GM8.extDecryptRegion_getD _ _ _ _ hj, if_neg h]

/-- Witness for the amended C4 at concrete inputs: seed dword 0 with table
read position `i = 1`, and the 6-byte buffer `[0,1,2,3,4,5]` with an empty
data region (`len = 0`), whose byte at index 2 is untouched. -/
theorem C4_ext_cipher_amended_witness :
    ((GM8.extCharTable 0).getD
      ((GM8.extTablePass1 (GM8.intToUInt32 (GM8.extSeeds 0).1)
        (GM8.intToUInt32 (GM8.extSeeds 0).2) 10000).getD 1 0 + 256) 0 = 1 % 256) ∧
    ((GM8.extDecryptRegion [0, 1, 2, 3, 4, 5] 0 0).getD 2 0 =
      ([0, 1, 2, 3, 4, 5] : List Nat).getD 2 0) :=
  ⟨C4_ext_cipher_amended.2.1 0 1 (by decide) (by decide),
    (C4_ext_cipher_amended.2.2.1 [0, 1, 2, 3, 4, 5] 0 0 2 (by decide)).2 (by decide)⟩

/-- C8 counterexample: in this build, creating the game window
(`RMakeGameWindow`) succeeds without setting `_contextSet` — the code that
would set it (and compile the atlases) is commented out — so a subsequent
`RMakeImage` is *not* treated as a fatal precondition violation: it
accepts the image instead of aborting. -/
theorem C8_counterexample :
    (GM8.rMakeGameWindow GM8.rInitState).1 = true ∧
    (GM8.rMakeImage (GM8.rMakeGameWindow GM8.rInitState).2
      1 1 0 0 [0, 0, 0, 0]).isSome = true := by
  exact ⟨rfl, rfl⟩

/-- C8 as amended: `RMakeImage` treats a set `_contextSet` flag as a fatal
precondition violation (it aborts, modelled as `none`); but in this build
neither window creation nor atlas compilation ever sets the flag, so in
every state reachable from initialisation `RMakeImage` accepts the image —
the fatal branch is unreachable. -/
theorem C8_make_image_fatal_check (st : GM8.RState) :
    (st.contextSet = true →
      ∀ w h ox oy bytes, GM8.rMakeImage st w h ox oy bytes = none) ∧
    (GM8.RReach st →
      ∀ w h ox oy bytes, (GM8.rMakeImage st w h ox oy bytes).isSome = true) := by
  constructor
  · intro hc w h ox oy bytes
    rw [GM8.rMakeImage, if_pos hc]
  · intro hr w h ox oy bytes
    rw [GM8.rMakeImage, if_neg (by rw [GM8.rReach_contextSet st hr]; exact Bool.false_ne_true)]
    rfl

/-- Witness for the amended C8: the state after window creation is
reachable and accepts an image; a state with the flag artificially set
aborts. -/
theorem C8_make_image_fatal_check_witness :
    (GM8.rMakeImage { GM8.rInitState with contextSet := true } 1 1 0 0 [] = none) ∧
    ((GM8.rMakeImage (GM8.rMakeGameWindow GM8.rInitState).2 1 1 0 0 []).isSome = true) :=
  ⟨(C8_make_image_fatal_check { GM8.rInitState with contextSet := true }).1 rfl 1 1 0 0 [],
    (C8_make_image_fatal_check (GM8.rMakeGameWindow GM8.rInitState).2).2
      (GM8.RReach.makeWindow GM8.RReach.init) 1 1 0 0 []⟩

/-- C9 counterexample: `RDrawPartialImage` also silently no-ops when
`partY >= image.height` (second early return), even when
`partX < image.width`; the claim's "in every other case the subregion is
clamped [and a command appended]" is false.  Concrete input: a 4×4 image,
`partX = 0`, `partY = 5`. -/
theorem C9_counterexample :
    (0 : Nat) <
      ((({ GM8.rInitState with
        atlasImages := [{ w := 4, h := 4, originX := 0, originY := 0 }] } :
          GM8.RState)).atlasImages.getD 0 default).w ∧
    (GM8.rDrawPartialImage
      { GM8.rInitState with
        atlasImages := [{ w := 4, h := 4, originX := 0, originY := 0 }] }
      0 0 5 2 2).drawCommands = [] := by
  exact ⟨by decide, rfl⟩

/-- C9 as amended: `RDrawPartialImage` appends no draw command when
`partX >= image.width` *or* `partY >= image.height`; in every other case
exactly one command is appended, with `partW` clamped to `width - partX`
and `partH` to `height - partY` whenever they would exceed the image, so
the command's texel subregion never leaves the image's rectangle. -/
theorem C9_draw_partial_clamp (st : GM8.RState) (ix partX partY partW partH : Nat) :
    (partX ≥ (st.atlasImages.getD ix default).w →
      GM8.rDrawPartialImage st ix partX partY partW partH = st) ∧
    (partY ≥ (st.atlasImages.getD ix default).h →
      GM8.rDrawPartialImage st ix partX partY partW partH = st) ∧
    (partX < (st.atlasImages.getD ix default).w →
      partY < (st.atlasImages.getD ix default).h →
      (GM8.rDrawPartialImage st ix partX partY partW partH).drawCommands =
        st.drawCommands ++
          [{ imageIndex := ix,
             atlasId := (st.atlasImages.getD ix default).atlasId,
             partX := partX, partY := partY,
             partW := min partW ((st.atlasImages.getD ix default).w - partX),
             partH := min partH ((st.atlasImages.getD ix default).h - partY) }] ∧
      partX + min partW ((st.atlasImages.getD ix default).w - partX) ≤
        (st.atlasImages.getD ix default).w ∧
      partY + min partH ((st.atlasImages.getD ix default).h - partY) ≤
        (st.atlasImages.getD ix default).h) := by
  refine ⟨?_, ?_, ?_⟩
  · intro hx
    simp only [GM8.rDrawPartialImage]
    rw [if_pos hx]
  · intro hy
    simp only [GM8.rDrawPartialImage]
    by_cases h1 : partX ≥ (st.atlasImages.getD ix default).w
    · rw [if_pos h1]
    · rw [if_neg h1, if_pos hy]
  · intro hx hy
    have hres : GM8.rDrawPartialImage st ix partX partY partW partH =
        { st with drawCommands := st.drawCommands ++
          [{ imageIndex := ix,
             atlasId := (st.atlasImages.getD ix default).atlasId,
             partX := partX, partY := partY,
             partW := if partX + partW > (st.atlasImages.getD ix default).w then
               (st.atlasImages.getD ix default).w - partX else partW,
             partH := if partY + partH > (st.atlasImages.getD ix default).h then
               (st.atlasImages.getD ix default).h - partY else partH }] } := by
      simp only [GM8.rDrawPartialImage]
      rw [if_neg (by omega), if_neg (by omega)]
    rw [hres]
    refine ⟨?_, by omega, by omega⟩
    rw [show (if partX + partW > (st.atlasImages.getD ix default).w then
          (st.atlasImages.getD ix default).w - partX else partW) =
        min partW ((st.atlasImages.getD ix default).w - partX) by split <;> omega,
      show (if partY + partH > (st.atlasImages.getD ix default).h then
          (st.atlasImages.getD ix default).h - partY else partH) =
        min partH ((st.atlasImages.getD ix default).h - partY) by split <;> omega]

/-- Witness for the amended C9 at a one-image state: a fully in-bounds
request on a 4×4 image appends one clamped command; `partX = 9` out of
range is a no-op. -/
theorem C9_draw_partial_clamp_witness :
    (GM8.rDrawPartialImage
      { GM8.rInitState with
        atlasImages := [{ w := 4, h := 4, originX := 0, originY := 0 }] }
      0 1 1 9 9).drawCommands =
      [] ++ [{ imageIndex := 0, atlasId := none, partX := 1, partY := 1,
               partW := min 9 (4 - 1), partH := min 9 (4 - 1) }] ∧
    GM8.rDrawPartialImage
      { GM8.rInitState with
        atlasImages := [{ w := 4, h := 4, originX := 0, originY := 0 }] }
      0 9 0 1 1 =
      { GM8.rInitState with
        atlasImages := [{ w := 4, h := 4, originX := 0, originY := 0 }] } :=
  ⟨((C9_draw_partial_clamp
      { GM8.rInitState with
        atlasImages := [{ w := 4, h := 4, originX := 0, originY := 0 }] }
      0 1 1 9 9).2.2 (by decide) (by decide)).1,
    (C9_draw_partial_clamp
      { GM8.rInitState with
        atlasImages := [{ w := 4, h := 4, originX := 0, originY := 0 }] }
      0 9 0 1 1).1 (by decide)⟩

/-- C10: starting from the initial renderer state, a sequence of image
submissions returns the dense indices `0, 1, 2, …` in submission order
(the n-th submission returns `n - 1` = the number of images submitted
before it), and the atlas-image table holds each submission's reference
record at exactly its returned index. -/
theorem C10_make_image_dense_indices (imgs : List GM8.RImageSpec) :
    ∃ st' : GM8.RState,
      GM8.rSubmitImages GM8.rInitState imgs =
        some (List.range imgs.length, st') ∧
      st'.atlasImages = imgs.map GM8.RImageSpec.record := by
  have general : ∀ (l : List GM8.RImageSpec) (st : GM8.RState),
      st.contextSet = false →
      ∃ st', GM8.rSubmitImages st l =
          some (List.range' st.atlasImages.length l.length, st') ∧
        st'.atlasImages = st.atlasImages ++ l.map GM8.RImageSpec.record ∧
        st'.contextSet = false := by
    intro l
    induction l with
    | nil =>
      intro st hc
      exact ⟨st, by simp [GM8.rSubmitImages, List.range'], by simp, hc⟩
    | cons s rest ih =>
      intro st hc
      have hmk : GM8.rMakeImage st s.w s.h s.originX s.originY s.bytes =
          some (st.atlasImages.length,
            { st with
                atlasImages := st.atlasImages ++ [s.record]
                preImages := st.preImages ++
                  [{ w := s.w, h := s.h, data := s.bytes.take (s.w * s.h * 4),
                     imgIndex := st.atlasImages.length }]
                tallest := max st.tallest s.w
                widest := max st.widest s.h
                pixelCount := st.pixelCount + s.w * s.h }) := by
        rw [GM8.rMakeImage, if_neg (by rw [hc]; exact Bool.false_ne_true)]
        rfl
      obtain ⟨st', hsub, hatlas, hc'⟩ := ih
        { st with
            atlasImages := st.atlasImages ++ [s.record]
            preImages := st.preImages ++
              [{ w := s.w, h := s.h, data := s.bytes.take (s.w * s.h * 4),
                 imgIndex := st.atlasImages.length }]
            tallest := max st.tallest s.w
            widest := max st.widest s.h
            pixelCount := st.pixelCount + s.w * s.h } hc
      have hlen2 : ({ st with
          atlasImages := st.atlasImages ++ [s.record]
          preImages := st.preImages ++
            [{ w := s.w, h := s.h, data := s.bytes.take (s.w * s.h * 4),
               imgIndex := st.atlasImages.length }]
          tallest := max st.tallest s.w
          widest := max st.widest s.h
          pixelCount := st.pixelCount + s.w * s.h } :
          GM8.RState).atlasImages.length = st.atlasImages.length + 1 := by
        simp
      rw [hlen2] at hsub
      refine ⟨st', ?_, ?_, hc'⟩
      · rw [GM8.rSubmitImages, hmk]
        simp only [Option.some_bind]
        rw [hsub]
        simp only [Option.some_bind]
        rfl
      · rw [hatlas]
        simp
  obtain ⟨st', hsub, hatlas, -⟩ := general imgs GM8.rInitState rfl
  refine ⟨st', ?_, by simpa using hatlas⟩
  rw [hsub]
  congr 1
  rw [show (GM8.rInitState.atlasImages.length) = 0 from rfl]
  rw [List.range_eq_range']

/-- C7: `RRenderFrame` consumes each draw command exactly once in original
submission order, partitioned into maximal contiguous runs sharing the
same atlas id (the concatenation of the runs is the original command list,
each run is nonempty and constant in atlas id, and adjacent runs have
different atlas ids); a texture bind occurs for a run exactly when its
atlas id differs from the currently bound atlas (`RBindsOk`). -/
theorem C7_render_frame_batching (bound : Option Nat)
    (cmds : List GM8.RDrawCommand) :
    ((GM8.rRenderFrame bound cmds).1.map Prod.fst).flatten = cmds ∧
    (∀ r ∈ (GM8.rRenderFrame bound cmds).1,
      r.1 ≠ [] ∧ ∀ c ∈ r.1, c.atlasId = r.1.headI.atlasId) ∧
    List.Chain' (fun r s => r.1.headI.atlasId ≠ s.1.headI.atlasId)
      (GM8.rRenderFrame bound cmds).1 ∧
    GM8.RBindsOk bound (GM8.rRenderFrame bound cmds).1 := by
  suffices h : ∀ (n : Nat) (bound : Option Nat) (cmds : List GM8.RDrawCommand),
      cmds.length ≤ n →
      ((GM8.rRenderFrame bound cmds).1.map Prod.fst).flatten = cmds ∧
      (∀ r ∈ (GM8.rRenderFrame bound cmds).1,
        r.1 ≠ [] ∧ ∀ c ∈ r.1, c.atlasId = r.1.headI.atlasId) ∧
      List.Chain' (fun r s => r.1.headI.atlasId ≠ s.1.headI.atlasId)
        (GM8.rRenderFrame bound cmds).1 ∧
      GM8.RBindsOk bound (GM8.rRenderFrame bound cmds).1 by
    exact h cmds.length bound cmds le_rfl
  intro n
  induction n with
  | zero =>
    intro bound cmds hlen
    have hnil : cmds = [] := by
      cases cmds
      · rfl
      · simp at hlen
    subst hnil
    rw [GM8.rRenderFrame_nil]
    exact ⟨rfl, by simp, List.chain'_nil, GM8.RBindsOk.nil bound⟩
  | succ n ih =>
    intro bound cmds hlen
    match cmds with
    | [] =>
      rw [GM8.rRenderFrame_nil]
      exact ⟨rfl, by simp, List.chain'_nil, GM8.RBindsOk.nil bound⟩
    | c :: rest =>
      have hrest' :
          (rest.dropWhile (fun d => d.atlasId == c.atlasId)).length ≤ n := by
        have hsfx : (rest.dropWhile
            (fun d => d.atlasId == c.atlasId)).length ≤ rest.length :=
          (List.dropWhile_suffix _).length_le
        simp only [List.length_cons] at hlen
        omega
      obtain ⟨ja, jb, jc, jd⟩ := ih c.atlasId
        (rest.dropWhile (fun d => d.atlasId == c.atlasId)) hrest'
      rw [GM8.rRenderFrame_cons]
      refine ⟨?_, ?_, ?_, ?_⟩
      · simp only [List.map_cons, List.flatten_cons, ja]
        rw [List.cons_append, List.takeWhile_append_dropWhile]
      · intro r hr
        rcases List.mem_cons.mp hr with rfl | hr
        · refine ⟨by simp, ?_⟩
          intro c' hc'
          rcases List.mem_cons.mp hc' with rfl | hc'
          · rfl
          · have hbeq := List.mem_takeWhile_imp hc'
            show c'.atlasId = c.atlasId
            exact eq_of_beq hbeq
        · exact jb r hr
      · rw [List.chain'_cons']
        refine ⟨?_, jc⟩
        intro s hs
        rcases hruns : (GM8.rRenderFrame c.atlasId
            (rest.dropWhile (fun d => d.atlasId == c.atlasId))).1 with - | ⟨r, t⟩
        · rw [hruns] at hs
          simp at hs
        · rw [hruns] at hs ja jb
          simp only [List.head?_cons, Option.mem_some_iff] at hs
          subst hs
          obtain ⟨hne, -⟩ := jb r (List.mem_cons_self _ _)
          rcases hs1 : r.1 with - | ⟨rh, rt⟩
          · exact absurd hs1 hne
          · simp only [List.map_cons, List.flatten_cons] at ja
            rw [hs1] at ja
            have hdcons : rest.dropWhile (fun d => d.atlasId == c.atlasId) =
                rh :: (rt ++ ((t.map Prod.fst).flatten)) := by
              rw [← ja]
              simp
            have hfalse := GM8.dropWhile_cons_head _ rest rh _ hdcons
            have hne2 : rh.atlasId ≠ c.atlasId := by
              intro hcontra
              rw [hcontra] at hfalse
              simp at hfalse
            simp only [hs1, List.headI_cons]
            exact fun hcontra => hne2 hcontra.symm
      · exact GM8.RBindsOk.cons bound _ _ _ rfl jd

/-- C1: theorem evaluating the extension-loading stage of `GameLoad` at a
failing input.  The input is a crafted stream declaring one extension with
one file (all strings empty, no functions or constants, a 5-byte data
region) together with an inflate oracle that fails — modelling a corrupt
zlib block for the extension file's data.  The stage finishes with
`earlyReturn true`: `GameLoad` frees its buffers and returns `true`, the
*success* code, although the extension file was never read — every sibling
error path returns `false`, and the code comments the branch with
"Error reading file". -/
theorem C1_ext_file_inflate_failure_returns_success :
    GM8.loadExtensions (fun _ _ => none)
      [0, 0, 0, 0, 1, 0, 0, 0, 0, 0, 0, 0, 0, 0, 0, 0, 0, 0, 0, 0,
       1, 0, 0, 0, 0, 0, 0, 0, 0, 0, 0, 0, 0, 0, 0, 0, 0, 0, 0, 0,
       0, 0, 0, 0, 0, 0, 0, 0, 0, 0, 0, 0, 5, 0, 0, 0] 0 =
      GM8.ExtLoadResult.earlyReturn true := by
  rfl

/-- C2: for the cited per-record sections (triggers and sprites), a record
whose decompressed block has a leading zero dword is tombstoned — it
yields `exists == false` with no body read — and it still occupies its
index slot: the loaded record list has exactly one record per block, and
the record at index `i` is parsed from block `i` (for sprites, threading
the renderer state), so record IDs form a dense 0-based sequence matching
file order and a later positional reference such as an Object's
`spriteIndex` resolves to the record of the `spriteIndex`-th sprite
block. -/
theorem C2_tombstoned_records :
    (∀ blocks : List (List Nat),
      (GM8.loadTriggers blocks).length = blocks.length) ∧
    (∀ (blocks : List (List Nat)) (i : Nat), i < blocks.length →
      (GM8.loadTriggers blocks).getD i default =
        GM8.parseTrigger (blocks.getD i [])) ∧
    (∀ block : List Nat, GM8.readDword block 0 = 0 →
      GM8.parseTrigger block = { exists_ := false, body := none }) ∧
    (∀ (blocks : List (List Nat)) (rst : GM8.RState)
        (sprites : List GM8.Sprite) (rst' : GM8.RState),
      GM8.loadSprites blocks rst = some (sprites, rst') →
      sprites.length = blocks.length ∧
      ∀ i, i < blocks.length →
        ∃ r r', GM8.parseSprite (blocks.getD i []) r =
          some (sprites.getD i default, r')) ∧
    (∀ (block : List Nat) (rst : GM8.RState), GM8.readDword block 0 = 0 →
      GM8.parseSprite block rst =
        some ({ exists_ := false, body := none }, rst)) := by
  refine ⟨?_, ?_, ?_, ?_, ?_⟩
  · intro blocks
    simp [GM8.loadTriggers]
  · intro blocks i h
    simp [GM8.loadTriggers, List.getD_eq_getElem?_getD, List.getElem?_map,
      List.getElem?_eq_getElem h]
  · intro block h
    simp [GM8.parseTrigger, h]
  · intro blocks
    induction blocks with
    | nil =>
      intro rst sprites rst' h
      rw [GM8.loadSprites] at h
      cases h
      exact ⟨rfl, by intro i hi; simp at hi⟩
    | cons b bs ih =>
      intro rst sprites rst' h
      rcases hp : GM8.parseSprite b rst with - | ⟨s, rst1⟩
      · rw [GM8.loadSprites, hp] at h
        cases h
      · simp only [GM8.loadSprites, hp, Option.some_bind] at h
        rcases hl : GM8.loadSprites bs rst1 with - | ⟨ss, rst2⟩
        · rw [hl] at h
          cases h
        · rw [hl] at h
          simp only [Option.some_bind, Option.some.injEq, Prod.mk.injEq] at h
          obtain ⟨hsp, hrst⟩ := h
          subst hsp hrst
          obtain ⟨hlen, hidx⟩ := ih rst1 ss rst2 hl
          refine ⟨by simp [hlen], ?_⟩
          intro i hi
          match i with
          | 0 => exact ⟨rst, rst1, hp⟩
          | i + 1 =>
            obtain ⟨r, r', hr⟩ := hidx i (by simpa using hi)
            exact ⟨r, r', hr⟩
  · intro block rst h
    simp [GM8.parseSprite, h]

/-- Witness for C2 at concrete blocks: a single tombstoned trigger block
and a single tombstoned sprite block. -/
theorem C2_tombstoned_records_witness :
    (GM8.loadTriggers [[0, 0, 0, 0]]).getD 0 default =
      GM8.parseTrigger (([[0, 0, 0, 0]] : List (List Nat)).getD 0 []) ∧
    GM8.parseTrigger [0, 0, 0, 0] = { exists_ := false, body := none } ∧
    ((GM8.loadSprites [[0, 0, 0, 0]] GM8.rInitState).map
        (fun p => p.1.length)) = some 1 ∧
    GM8.parseSprite [0, 0, 0, 0] GM8.rInitState =
      some ({ exists_ := false, body := none }, GM8.rInitState) := by
  refine ⟨C2_tombstoned_records.2.1 [[0, 0, 0, 0]] 0 (by decide),
    C2_tombstoned_records.2.2.1 [0, 0, 0, 0] (by decide), ?_,
    C2_tombstoned_records.2.2.2.2 [0, 0, 0, 0] GM8.rInitState (by decide)⟩
  have h := (C2_tombstoned_records.2.2.2.1 [[0, 0, 0, 0]] GM8.rInitState
    [{ exists_ := false, body := none }] GM8.rInitState (by rfl)).1
  rfl

/-- C5: the GM8.1 stream XOR cipher (`Decrypt81`) skips exactly
`(seed2 & 0xFF) + 0xA` bytes after reading the raw `seed1` dword at `pos`
(those bytes, and everything before them, are left unchanged), then
decrypts every subsequent 4-byte-aligned dword by XOR with the mask
produced by the two-seed generator
(`seed1 := (seed1 & 0xFFFF) * 0x9069 + (seed1 >> 16)` and the analogous
recurrence for `seed2`, mask `= (seed1 << 16) + (seed2 & 0xFFFF)`, all
modulo 2^32), and leaves a trailing partial dword of fewer than 4 bytes
undecrypted. -/
theorem C5_stream_xor_cipher (stream : List Nat) (pos seed2 : Nat) :
    (GM8.decrypt81 stream pos seed2).length = stream.length ∧
    (∀ i, i < pos + 4 + ((seed2 &&& 0xFF) + 0xA) →
      (GM8.decrypt81 stream pos seed2).getD i 0 = stream.getD i 0) ∧
    (∀ k j, j < 4 → pos + 4 + ((seed2 &&& 0xFF) + 0xA) + 4 * k + 3 < stream.length →
      (GM8.decrypt81 stream pos seed2).getD
          (pos + 4 + ((seed2 &&& 0xFF) + 0xA) + 4 * k + j) 0 =
        (GM8.dwordBytes
            (GM8.readDword stream (pos + 4 + ((seed2 &&& 0xFF) + 0xA) + 4 * k) ^^^
              GM8.xorMaskSeq (GM8.readDword stream pos, seed2) k)).getD j 0) ∧
    (∀ i, pos + 4 + ((seed2 &&& 0xFF) + 0xA) +
        4 * ((stream.length - (pos + 4 + ((seed2 &&& 0xFF) + 0xA))) / 4) ≤ i →
      (GM8.decrypt81 stream pos seed2).getD i 0 = stream.getD i 0) := by
  set encPos := pos + 4 + ((seed2 &&& 0xFF) + 0xA) with hEnc
  have hout : GM8.decrypt81 stream pos seed2 =
      stream.take encPos ++
        GM8.decrypt81Core (GM8.readDword stream pos, seed2) (stream.drop encPos) := by
    simp [GM8.decrypt81, hEnc]
  refine ⟨GM8.decrypt81_length stream pos seed2, ?_, ?_, ?_⟩
  · intro i hi
    rcases Nat.lt_or_ge i stream.length with hlen | hlen
    · rw [hout, List.getD_append _ _ _ _ (by simp; omega)]
      simp [List.getD_eq_getElem?_getD, List.getElem?_take, hi]
    · rw [List.getD_eq_default _ _ (by rw [GM8.decrypt81_length]; omega),
        List.getD_eq_default _ _ (by omega)]
  · intro k j hj hk
    have hEncLen : encPos ≤ stream.length := by omega
    rw [hout, List.getD_append_right _ _ _ _ (by simp; omega)]
    have htl : (stream.take encPos).length = encPos := by simp; omega
    rw [htl]
    have hidx : encPos + 4 * k + j - encPos = 4 * k + j := by omega
    rw [hidx, GM8.decrypt81Core_getD_chunk _ _ k j hj (by simp; omega)]
    rw [GM8.readDword_drop]
  · intro i hi
    rcases Nat.lt_or_ge stream.length encPos with hlen | hlen
    · have hdrop : stream.drop encPos = [] := List.drop_eq_nil_of_le (by omega)
      have htake : stream.take encPos = stream := List.take_of_length_le (by omega)
      rw [hout, hdrop, htake]
      simp [GM8.decrypt81Core]
    · rw [hout, List.getD_append_right _ _ _ _ (by simp; omega)]
      have htl : (stream.take encPos).length = encPos := by simp; omega
      rw [htl, GM8.decrypt81Core_getD_tail _ _ _ (by simp; omega), GM8.getD_drop]
      congr 1
      omega

/-- C6: a file is treated as GM8.0 exactly when the dword at absolute
offset 2,000,000 equals 1234321; otherwise it is treated as GM8.1 exactly
when a windowed scan of at most 1024 dword steps starting at 3,800,004
finds a dword matching `& 0xFF00FF00 == 0xF7000000` immediately followed
by one matching `& 0x00FF00FF == 0x00140067`; if neither fingerprint
matches, the version check makes `GameLoad` fail. -/
theorem C6_version_detection (buffer : List Nat) :
    (GM8.versionCheck buffer = .ok 800 ↔ GM8.readDword buffer 2000000 = 1234321) ∧
    (GM8.versionCheck buffer = .ok 810 ↔
      (GM8.readDword buffer 2000000 ≠ 1234321 ∧
        ∃ i < 1024,
          GM8.readDword buffer (3800004 + 4 * i) &&& 0xFF00FF00 = 0xF7000000 ∧
          GM8.readDword buffer (3800004 + 4 * i + 4) &&& 0x00FF00FF = 0x00140067)) ∧
    (GM8.versionCheck buffer = .error () ↔
      (GM8.readDword buffer 2000000 ≠ 1234321 ∧
        ¬ ∃ i < 1024,
          GM8.readDword buffer (3800004 + 4 * i) &&& 0xFF00FF00 = 0xF7000000 ∧
          GM8.readDword buffer (3800004 + 4 * i + 4) &&& 0x00FF00FF = 0x00140067)) := by
  by_cases h80 : GM8.readDword buffer 2000000 = 1234321
  · have hv : GM8.versionCheck buffer = .ok 800 := by
      simp [GM8.versionCheck, GM8.detectVersion, h80]
    rw [hv]
    refine ⟨by simp [h80], by simp [h80], by simp [h80]⟩
  · have hscan := GM8.scan81_eq_810_iff buffer 3800004 1024
    rcases GM8.scan81_zero_or_810 buffer 3800004 1024 with h0 | h810
    · have hv : GM8.versionCheck buffer = .error () := by
        simp [GM8.versionCheck, GM8.detectVersion, h80, h0]
      have hnex : ¬ ∃ i < 1024,
          GM8.readDword buffer (3800004 + 4 * i) &&& 0xFF00FF00 = 0xF7000000 ∧
          GM8.readDword buffer (3800004 + 4 * i + 4) &&& 0x00FF00FF = 0x00140067 := by
        rw [← hscan, h0]
        omega
      rw [hv]
      exact ⟨by simp [h80], by simp [hnex], by simp [h80, hnex]⟩
    · have hv : GM8.versionCheck buffer = .ok 810 := by
        simp [GM8.versionCheck, GM8.detectVersion, h80, h810]
      have hex := hscan.mp h810
      rw [hv]
      refine ⟨by simp [h80], by simp [h80, hex], ?_⟩
      constructor
      · intro h
        exact absurd h (by simp)
      · rintro ⟨-, hne⟩
        exact absurd hex hne

/-- Witness for C5 at a concrete input: `pos = 0`, `seed2 = 0`, a 20-byte
stream; the skip region is `[0, 14)`, one dword at `14..17` is decrypted,
and the trailing 2 bytes are untouched. -/
theorem C5_stream_xor_cipher_witness :
    ((GM8.decrypt81 (List.range 20) 0 0).getD 3 0 = (List.range 20).getD 3 0) ∧
    ((GM8.decrypt81 (List.range 20) 0 0).getD 14 0 =
      (GM8.dwordBytes (GM8.readDword (List.range 20) 14 ^^^
        GM8.xorMaskSeq (GM8.readDword (List.range 20) 0, 0) 0)).getD 0 0) ∧
    ((GM8.decrypt81 (List.range 20) 0 0).getD 18 0 = (List.range 20).getD 18 0) := by
  obtain ⟨-, h2, h3, h4⟩ := C5_stream_xor_cipher (List.range 20) 0 0
  refine ⟨h2 3 (by decide), ?_, h4 18 (by decide)⟩
  have := h3 0 0 (by decide) (by decide)
  simpa using this

/-- C3 counterexample: `_Compile` *does* silently drop images.  Its
`_pixelCount == 0` early `return true` reports success without ever
calling the packer, so a submitted image of zero area (here a 0×0 image,
which is no larger than the maximum texture dimension on either axis) is
accepted by `RMakeImage` yet never packed: after a successful `_Compile`
its reference record still has no atlas id.  The claim's "never silently
drop an image" is therefore false as stated. -/
theorem C3_counterexample :
    ∃ st1 : GM8.RState,
      GM8.rMakeImage GM8.rInitState 0 0 0 0 [] = some (0, st1) ∧
      GM8.rCompile GM8.c3Packer st1 0 = some st1 ∧
      st1.preImages.length = 1 ∧
      ∀ img ∈ st1.atlasImages, img.atlasId = none := by
  refine ⟨_, rfl, ?_, rfl, ?_⟩
  · rw [GM8.rCompile]
    norm_num [GM8.rInitState]
  · intro img h
    simp [GM8.rInitState] at h
    subst h
    rfl

/-- C3 as amended: provided the packer (the external rectpack2D library)
reports one placement slot per input rectangle and places distinct
rectangles disjointly, and provided the pending images have distinct,
in-range record indices and *at least one submitted image has nonzero
area* (`_pixelCount != 0` — otherwise `_Compile` silently succeeds without
packing anything, see the counterexample), `_Compile` on a state whose
`_maxTextures` is below the 32-slot `_atlases` capacity either fails
(`return false`, covering the atlas-overflow path `firstAtlas >
_maxTextures` and the oversized-image checks) or succeeds with *every*
pending image packed: each reference record receives an atlas id `< 32`,
a position, and the image's size, and two images in the same atlas never
overlap. -/
theorem C3_atlas_packing (packer : GM8.RPacker) (st : GM8.RState)
    (Hplen : ∀ rects, (packer rects).placed.length = rects.length)
    (Hdisj : ∀ rects i j xi yi xj yj, i < rects.length → j < rects.length →
      i ≠ j → (packer rects).placed.getD i none = some (xi, yi) →
      (packer rects).placed.getD j none = some (xj, yj) →
      GM8.rectDisjoint xi yi (rects.getD i default).1 (rects.getD i default).2
        xj yj (rects.getD j default).1 (rects.getD j default).2)
    (hnd : (st.preImages.map GM8.RPreImage.imgIndex).Nodup)
    (hlt : ∀ p ∈ st.preImages, p.imgIndex < st.atlasImages.length)
    (hpx : st.pixelCount ≠ 0)
    (hmt : st.maxTextures < 32) :
    GM8.rCompile packer st 0 = none ∨
    ∃ st2, GM8.rCompile packer st 0 = some st2 ∧
      (∀ p ∈ st.preImages, ∃ r xp yp, r < 32 ∧
        st2.atlasImages.getD p.imgIndex default =
          { atlasId := some r, x := some xp, y := some yp, w := p.w, h := p.h,
            originX := (st.atlasImages.getD p.imgIndex default).originX,
            originY := (st.atlasImages.getD p.imgIndex default).originY }) ∧
      (∀ p ∈ st.preImages, ∀ q ∈ st.preImages, p.imgIndex ≠ q.imgIndex →
        ∀ r xp yp xq yq,
          (st2.atlasImages.getD p.imgIndex default).atlasId = some r →
          (st2.atlasImages.getD q.imgIndex default).atlasId = some r →
          (st2.atlasImages.getD p.imgIndex default).x = some xp →
          (st2.atlasImages.getD p.imgIndex default).y = some yp →
          (st2.atlasImages.getD q.imgIndex default).x = some xq →
          (st2.atlasImages.getD q.imgIndex default).y = some yq →
          GM8.rectDisjoint xp yp (st2.atlasImages.getD p.imgIndex default).w
            (st2.atlasImages.getD p.imgIndex default).h xq yq
            (st2.atlasImages.getD q.imgIndex default).w
            (st2.atlasImages.getD q.imgIndex default).h) := by
  cases hc : GM8.rCompile packer st 0 with
  | none => exact Or.inl rfl
  | some st2 =>
    obtain ⟨K1, K2, K3⟩ := GM8.rCompile_packs_aux packer Hplen Hdisj
      (st.maxTextures + 1) st 0 st2 (by omega) hnd hlt hpx hc
    refine Or.inr ⟨st2, rfl, ?_, K3⟩
    intro p hp
    obtain ⟨r, xp, yp, hr0, hr1, he⟩ := K1 p hp
    exact ⟨r, xp, yp, by omega, he⟩

/-- Witness for the amended C3 at a concrete input: the one-image state
`c3State` (one 1×1 image, `_pixelCount = 1`) and the concrete packer
`c3Packer`, which satisfies both packer hypotheses. -/
theorem C3_atlas_packing_witness :
    (∀ rects, (GM8.c3Packer rects).placed.length = rects.length) ∧
    (GM8.c3State.preImages.map GM8.RPreImage.imgIndex).Nodup ∧
    GM8.c3State.pixelCount ≠ 0 ∧
    GM8.c3State.maxTextures < 32 ∧
    (GM8.rCompile GM8.c3Packer GM8.c3State 0 = none ∨
      ∃ st2, GM8.rCompile GM8.c3Packer GM8.c3State 0 = some st2 ∧
        (∀ p ∈ GM8.c3State.preImages, ∃ r xp yp, r < 32 ∧
          st2.atlasImages.getD p.imgIndex default =
            { atlasId := some r, x := some xp, y := some yp, w := p.w, h := p.h,
              originX := (GM8.c3State.atlasImages.getD p.imgIndex default).originX,
              originY :=
                (GM8.c3State.atlasImages.getD p.imgIndex default).originY }) ∧
        (∀ p ∈ GM8.c3State.preImages, ∀ q ∈ GM8.c3State.preImages,
          p.imgIndex ≠ q.imgIndex → ∀ r xp yp xq yq,
          (st2.atlasImages.getD p.imgIndex default).atlasId = some r →
          (st2.atlasImages.getD q.imgIndex default).atlasId = some r →
          (st2.atlasImages.getD p.imgIndex default).x = some xp →
          (st2.atlasImages.getD p.imgIndex default).y = some yp →
          (st2.atlasImages.getD q.imgIndex default).x = some xq →
          (st2.atlasImages.getD q.imgIndex default).y = some yq →
          GM8.rectDisjoint xp yp (st2.atlasImages.getD p.imgIndex default).w
            (st2.atlasImages.getD p.imgIndex default).h xq yq
            (st2.atlasImages.getD q.imgIndex default).w
            (st2.atlasImages.getD q.imgIndex default).h)) := by
  have hplen : ∀ rects, (GM8.c3Packer rects).placed.length = rects.length := by
    intro rects
    rw [GM8.c3Packer]
    split_ifs with h
    · simp [h]
    · simp
  refine ⟨hplen, by decide, by decide, by decide, ?_⟩
  refine C3_atlas_packing GM8.c3Packer GM8.c3State hplen ?_ (by decide)
    (by decide) (by decide) (by decide)
  intro rects i j xi yi xj yj hi hj hij hsi hsj
  rw [GM8.c3Packer] at hsi hsj
  split_ifs at hsi hsj with hlen1
  · omega
  · exfalso
    have hnone : ∀ m : Nat,
        (rects.map fun _ => (none : Option (Nat × Nat))).getD m none = none := by
      intro m
      rcases Nat.lt_or_ge m (rects.map fun _ => (none : Option (Nat × Nat))).length
        with hm | hm
      · rw [List.getD_eq_getElem _ _ hm, List.getElem_map]
      · rw [List.getD_eq_default _ _ hm]
    rw [hnone i] at hsi
    cases hsi
